import Mathlib

/-!
Verification development for the MessageHub ingestion engine
(scripts/ingest.py, scripts/lib/db_ops.py, scripts/parsers/*.py).

The relational store is embedded shallowly: a `DB` value carries the rows of
the `threads`, `content`/`messages` and `thread_labels` tables, and each SQL
statement used by the ingestion code becomes a pure function on `DB`.
Platform payload decoding (JSON/HTML/MIME parsing) is out of scope; the
parsers' storage logic receives the already-decoded records, exactly as the
ingestion loops in the source receive them from `json.load`/BeautifulSoup/
`mailbox.mbox`.
-/

namespace MessageHub

/-- The de-duplication key of the messages table:
`UNIQUE(thread_id, sender_name, timestamp_ms, content)`. -/
structure MsgKey where
  thread_id : String
  sender_name : String
  timestamp_ms : Int
  content : String
deriving DecidableEq

/-- One row of the `threads` table (columns besides the primary key).
`none` models SQL NULL for columns an `INSERT OR REPLACE` left unspecified. -/
structure ThreadRow where
  platform : String
  title : String
  participants_json : Option (List String)
  is_group : Option Bool
  last_activity_ms : Option Int
  snippet : Option String
deriving DecidableEq

/-- The store state: `threads` keyed by id, the message key set, and the
`thread_labels` rows. -/
structure DB where
  threads : List (String × ThreadRow)
  messages : List MsgKey
  thread_labels : List (String × String)
deriving DecidableEq

def emptyDB : DB := ⟨[], [], []⟩

/-- SQL `INSERT OR IGNORE INTO content/messages ...` followed by the
`cursor.rowcount > 0` test: returns the new state and whether a row was
inserted.  On a UNIQUE conflict the statement is a no-op (it never raises). -/
def insertMessageIfAbsent (k : MsgKey) (db : DB) : DB × Bool :=
  if k ∈ db.messages then (db, false)
  else ({ db with messages := k :: db.messages }, true)

/-- SQL `INSERT OR REPLACE INTO content ...` (used by the facebook event/post/
check-in ingesters): on a UNIQUE conflict the old row is deleted and the new
one inserted, so the key set is unchanged but `rowcount` is always 1. -/
def insertOrReplaceMessage (k : MsgKey) (db : DB) : DB × Bool :=
  if k ∈ db.messages then (db, true)
  else ({ db with messages := k :: db.messages }, true)

/-- SQL `INSERT OR REPLACE INTO threads (id, ...) VALUES ...`: replaces the whole
row when the id exists, otherwise adds it. -/
def upsertThread (id : String) (row : ThreadRow) (db : DB) : DB :=
  if db.threads.any (fun p => p.1 = id) then
    { db with threads := db.threads.map (fun p => if p.1 = id then (id, row) else p) }
  else
    { db with threads := (id, row) :: db.threads }

/-- SQL `SELECT * FROM threads WHERE id = ?`. -/
def lookupThread (id : String) (db : DB) : Option ThreadRow :=
  (db.threads.find? (fun p => p.1 = id)).map (·.2)

/-- SQL `UPDATE threads SET last_activity_ms = ?, snippet = ? WHERE id = ?`. -/
def updateThreadActivity (id : String) (last : Int) (snip : String) (db : DB) : DB :=
  { db with threads := db.threads.map (fun p =>
      if p.1 = id then (p.1, { p.2 with last_activity_ms := some last, snippet := some snip }) else p) }

/-- SQL `INSERT OR IGNORE INTO thread_labels (thread_id, label) VALUES (?, ?)`. -/
def insertLabelIfAbsent (tid label : String) (db : DB) : DB :=
  if (tid, label) ∈ db.thread_labels then db
  else { db with thread_labels := (tid, label) :: db.thread_labels }

/-- Folding `insertMessageIfAbsent` over a key list, starting from the empty
store: the message table reachable by any sequence of ingestion attempts. -/
def ingestKeys (ks : List MsgKey) : DB :=
  ks.foldl (fun db k => (insertMessageIfAbsent k db).1) emptyDB

/-- Whether a `threads` row with the given id exists. -/
def hasThread (id : String) (db : DB) : Bool :=
  db.threads.any (fun p => p.1 = id)

-- The per-message storage loop shared (line for line at this level of
-- abstraction) by the facebook/instagram, google chat and google voice
-- ingesters: INSERT OR IGNORE each message, count inserted/skipped by
-- rowcount, and track the running last-activity timestamp and snippet
-- under the source's `if ts >= last_activity_ms` guard.
/-- A message record as the storage loops receive it from the decoded export
(sender, timestamp, content, plus the fields the snippet logic inspects). -/
structure ParsedMessage where
  sender_name : String
  timestamp_ms : Int
  content : String
  media_types : List String
  is_voicemail : Bool
deriving DecidableEq

/-- Running state of a storage loop. -/
structure LoopState where
  db : DB
  inserted : Nat
  skipped : Nat
  last_activity_ms : Int
  latest_snippet : String

/-- facebook.py / google_chat.py snippet choice for a newest-so-far message:
`"{sender}: {content}"`, else `"{sender} sent a {type}"`, else
`"{sender} sent a message"`. -/
def fb_snippet (m : ParsedMessage) : String :=
  if m.content ≠ "" then m.sender_name ++ ": " ++ m.content
  else
    match m.media_types with
    | [] => m.sender_name ++ " sent a message"
    | t :: _ => m.sender_name ++ " sent a " ++ t

/-- google_voice.py snippet choice: "Voicemail" for voicemail files, else
`"{sender}: {content}"`, else `"{sender} sent a file"`, else the snippet is
left untouched. -/
def gv_snippet (m : ParsedMessage) (old : String) : String :=
  if m.is_voicemail then "Voicemail"
  else if m.content ≠ "" then m.sender_name ++ ": " ++ m.content
  else if m.media_types ≠ [] then m.sender_name ++ " sent a file"
  else old

def message_store_loop (tid : String) (snip : ParsedMessage → String → String) :
    List ParsedMessage → LoopState → LoopState
  | [], st => st
  | m :: rest, st =>
      let r := insertMessageIfAbsent ⟨tid, m.sender_name, m.timestamp_ms, m.content⟩ st.db
      message_store_loop tid snip rest
        { db := r.1
          inserted := if r.2 then st.inserted + 1 else st.inserted
          skipped := if r.2 then st.skipped else st.skipped + 1
          last_activity_ms :=
            if m.timestamp_ms ≥ st.last_activity_ms then m.timestamp_ms
            else st.last_activity_ms
          latest_snippet :=
            if m.timestamp_ms ≥ st.last_activity_ms then snip m st.latest_snippet
            else st.latest_snippet }

/-- The message key a storage loop inserts for a parsed message. -/
def msgKey (tid : String) (m : ParsedMessage) : MsgKey :=
  ⟨tid, m.sender_name, m.timestamp_ms, m.content⟩

-- facebook.py: `ingest_facebook_instagram_thread`.
/-- Lexicographic code-point comparison of character lists (Python's string
ordering). -/
def chars_le : List Char → List Char → Bool
  | [], _ => true
  | _ :: _, [] => false
  | a :: as, b :: bs => if a = b then chars_le as bs else decide (a < b)

/-- Python's `s <= t` on strings. -/
def string_le (s t : String) : Bool := chars_le s.toList t.toList

/-- String insertion preserving order, for `sorted(...)`. -/
def insertSortedStr (s : String) : List String → List String
  | [] => [s]
  | t :: ts => if string_le t s then t :: insertSortedStr s ts else s :: t :: ts

/-- Python `sorted` on strings. -/
def sortStrings (l : List String) : List String :=
  l.foldl (fun acc s => insertSortedStr s acc) []

/-- facebook.py `normalize_participants`: drop falsy entries, de-duplicate,
sort.  (The latin-1 `fix_text` repair is identity on already-decoded names,
which is how this model receives them.) -/
def normalize_participants (l : List String) : List String :=
  sortStrings (l.filter (fun s => s ≠ "")).dedup

/-- The `threads` row written by `ingest_facebook_instagram_thread`:
`INSERT OR REPLACE INTO threads (id, platform, title, participants_json,
is_group)` — note `last_activity_ms` and `snippet` are not in the column
list, and `is_group` is computed from the raw (pre-normalization)
participant list. -/
def fb_thread_row (platform title : String) (participants : List String) : ThreadRow :=
  { platform := platform
    title := title
    participants_json := some (normalize_participants participants)
    is_group := some (decide (2 < participants.length))
    last_activity_ms := none
    snippet := none }

/-- Loop state of `ingest_facebook_instagram_thread` after the thread REPLACE,
the `message` label insert, and the message loop over all files. -/
def fb_ingest_state (tid platform title : String) (participants : List String)
    (msgs : List ParsedMessage) (db : DB) : LoopState :=
  message_store_loop tid (fun m _ => fb_snippet m) msgs
    ⟨insertLabelIfAbsent tid "message"
        (upsertThread tid (fb_thread_row platform title participants) db),
      0, 0, 0, ""⟩

/-- parsers/facebook.py `ingest_facebook_instagram_thread`, given the decoded
title/participants metadata and the concatenated message lists of the
thread folder's `message_*.json` files (in glob order; the model assumes at
least one message file exists, since without one the function returns before
writing anything).  Returns the new store state and the (inserted, skipped)
counts. -/
def ingest_facebook_instagram_thread (tid platform title : String)
    (participants : List String) (msgs : List ParsedMessage) (db : DB) :
    DB × Nat × Nat :=
  let st := fb_ingest_state tid platform title participants msgs db
  (if st.last_activity_ms > 0 then
      updateThreadActivity tid st.last_activity_ms st.latest_snippet st.db
    else st.db, st.inserted, st.skipped)

-- facebook.py: `ingest_facebook_events`.
/-- One decoded RSVP entry of a `your_event_responses*.json` file, paired with
its category's status message and snippet. -/
structure FBEvent where
  start_timestamp : Int
  name : String
  status_msg : String
  snippet : String
deriving DecidableEq

/-- The `merged_events` dict: de-duplicate by start timestamp, first
occurrence wins, encounter order preserved. -/
def merge_events (evs : List FBEvent) : List FBEvent :=
  evs.foldl
    (fun acc e =>
      if acc.any (fun x => x.start_timestamp = e.start_timestamp) then acc
      else acc ++ [e]) []

def fb_event_id (ts_ms : Int) : String := "fb_event_" ++ toString ts_ms

/-- The thread id under which an RSVP event is stored
(`event_id = f"fb_event_{ts_ms}"` with `ts_ms = start_timestamp * 1000`). -/
def fb_event_tid (e : FBEvent) : String := fb_event_id (e.start_timestamp * 1000)

/-- The `threads` row an RSVP event REPLACEs:
`INSERT OR REPLACE INTO threads (id, platform, title, last_activity_ms,
snippet)` — `participants_json` and `is_group` are not in the column list. -/
def fb_event_row (e : FBEvent) : ThreadRow :=
  { platform := "facebook", title := e.name, participants_json := none,
    is_group := none, last_activity_ms := some (e.start_timestamp * 1000),
    snippet := some e.snippet }

/-- The message key of the RSVP pseudo-message of an event. -/
def fb_event_key (e : FBEvent) : MsgKey :=
  ⟨fb_event_tid e, "Facebook", e.start_timestamp * 1000, e.status_msg⟩

/-- Body of the `ingest_facebook_events` loop for one merged event: REPLACE
the thread row, OR IGNORE the `event` label, and `INSERT OR REPLACE` the RSVP
pseudo-message — whose rowcount is always positive, so it is always counted
as inserted. -/
def ingest_facebook_events_step (acc : DB × Nat × Nat) (e : FBEvent) : DB × Nat × Nat :=
  let r := insertOrReplaceMessage (fb_event_key e)
    (insertLabelIfAbsent (fb_event_tid e) "event"
      (upsertThread (fb_event_tid e) (fb_event_row e) acc.1))
  (r.1, if r.2 then acc.2.1 + 1 else acc.2.1, if r.2 then acc.2.2 else acc.2.2 + 1)

/-- parsers/facebook.py `ingest_facebook_events`, given the decoded RSVP
entries of all `your_event_responses*.json` files in encounter order. -/
def ingest_facebook_events (evs : List FBEvent) (db : DB) : DB × Nat × Nat :=
  (merge_events evs).foldl ingest_facebook_events_step (db, 0, 0)

/-- Concrete input for the C3 counterexample: one decoded RSVP entry. -/
def c3_events : List FBEvent :=
  [⟨1, "Party", "You joined this event.", "You joined this event."⟩]

-- C4: last_activity_ms semantics.
/-- The maximum timestamp over a call's parsed messages, as the running
`if ts >= last_activity_ms` fold computes it (starting from 0). -/
def max_timestamp (msgs : List ParsedMessage) : Int :=
  msgs.foldl (fun a m => max a m.timestamp_ms) 0

/-- The largest timestamp among the rows stored for a thread. -/
def stored_max_ts (tid : String) (db : DB) : Int :=
  db.messages.foldl
    (fun a k => if k.thread_id = tid then max a k.timestamp_ms else a) 0

/-- Concrete messages for the C4 witness: the same two messages of one
thread, given newest-first and oldest-first. -/
def c4_msgs : List ParsedMessage :=
  [⟨"A", 200, "new", [], false⟩, ⟨"A", 100, "old", [], false⟩]

def c4_msgs_rev : List ParsedMessage :=
  [⟨"A", 100, "old", [], false⟩, ⟨"A", 200, "new", [], false⟩]

/-- First call: the thread's newest message (timestamp 100) is ingested. -/
def c4_db1 : DB :=
  (ingest_facebook_instagram_thread "t" "facebook" "T" ["A", "B"]
    [⟨"A", 100, "hi", [], false⟩] emptyDB).1

/-- Second call, an overlapping export of the same thread holding only an
older message (timestamp 50). -/
def c4_db2 : DB :=
  (ingest_facebook_instagram_thread "t" "facebook" "T" ["A", "B"]
    [⟨"A", 50, "old", [], false⟩] c4_db1).1

-- Substring matching (Python's `needle in haystack`).
/-- Whether `needle` is an initial segment of `hay`. -/
def starts_with_chars : List Char → List Char → Bool
  | [], _ => true
  | _ :: _, [] => false
  | a :: as, b :: bs => a = b && starts_with_chars as bs

/-- Whether `needle` occurs contiguously inside `hay`. -/
def contains_chars (needle : List Char) : List Char → Bool
  | [] => starts_with_chars needle []
  | b :: bs => starts_with_chars needle (b :: bs) || contains_chars needle bs

/-- Python's `needle in haystack` on strings. -/
def contains_substr (needle hay : String) : Bool :=
  contains_chars needle.toList hay.toList

-- C8: platform classification of a candidate directory (ingest.py
-- `scan_directory`, the `platform_map` dict and the first-match generator).
/-- The ordered platform keyword table, in the dict's insertion order. -/
def platform_map : List (String × String) :=
  [("google chat", "google_chat"), ("facebook", "facebook"),
   ("messenger", "facebook"), ("instagram", "instagram")]

/-- Python `next((v for k, v in platform_map.items() if k in path_str), None)` over
the lowercased directory path. -/
def detected_platform (path_str : String) : Option String :=
  (platform_map.find? (fun kv => contains_substr kv.1 path_str)).map (fun kv => kv.2)

/-- A path whose first (positionally and alphabetically) platform keyword is
`instagram`, yet which is classified as facebook because `messenger` comes
earlier in the precedence table. -/
def c8_path : String := "takeout/instagram saved/messenger archive/thread"

-- C6: commit batching of the scan/dispatch loop (ingest.py `scan_directory`).
/-- One iteration of the processing loop, tracking
(total_threads, committed message rows, pending uncommitted message rows).
A unit counts only when it inserted or skipped something; the transaction is
committed exactly when `total_threads % 10 == 0`.  No commit is issued after
the loop: `conn.close()` discards whatever is still pending. -/
def scan_batch_step (st : Nat × Nat × Nat) (unit : Nat × Nat) : Nat × Nat × Nat :=
  if unit.1 > 0 ∨ unit.2 > 0 then
    let total := st.1 + 1
    let pending := st.2.2 + unit.1
    if total % 10 = 0 then (total, st.2.1 + pending, 0) else (total, st.2.1, pending)
  else st

/-- The loop of `scan_directory` over its work units' (inserted, skipped)
results: returns (total_threads, committed rows, pending rows at close). -/
def scan_directory_commits (units : List (Nat × Nat)) : Nat × Nat × Nat :=
  units.foldl scan_batch_step (0, 0, 0)

-- parsers/google_chat.py `ingest_google_chat_thread` (thread metadata and
-- message storage; the attachment reconciliation of the same function is
-- modelled separately below).
/-- The `threads` row written by `ingest_google_chat_thread`: the source sets
`is_group = True` unconditionally ("Google Chat exports are usually Groups
or DMs (which are groups of 2)"). -/
def gc_thread_row (title : String) (participants : List String) : ThreadRow :=
  { platform := "google_chat"
    title := title
    participants_json := some (normalize_participants participants)
    is_group := some true
    last_activity_ms := none
    snippet := none }

/-- Loop state of `ingest_google_chat_thread` after the thread REPLACE (no
label is inserted for chat threads) and the message loop. -/
def gc_ingest_state (tid title : String) (participants : List String)
    (msgs : List ParsedMessage) (db : DB) : LoopState :=
  message_store_loop tid (fun m _ => fb_snippet m) msgs
    ⟨upsertThread tid (gc_thread_row title participants) db, 0, 0, 0, ""⟩

def ingest_google_chat_thread (tid title : String) (participants : List String)
    (msgs : List ParsedMessage) (db : DB) : DB × Nat × Nat :=
  let st := gc_ingest_state tid title participants msgs db
  (if st.last_activity_ms > 0 then
      updateThreadActivity tid st.last_activity_ms st.latest_snippet st.db
    else st.db, st.inserted, st.skipped)

-- parsers/google_voice.py `ingest_google_voice_thread`.
/-- The `threads` row written by a Google Voice virtual thread:
`INSERT OR REPLACE INTO threads (id, platform, title, participants_json,
last_activity_ms, snippet)` — `is_group` is not in the column list, and the
participants are `["Me", thread_id]`. -/
def gv_thread_row (tid : String) (last : Int) (snip : String) : ThreadRow :=
  { platform := "google_voice"
    title := tid
    participants_json := some ["Me", tid]
    is_group := none
    last_activity_ms := some last
    snippet := some snip }

/-- parsers/google_voice.py `ingest_google_voice_thread`, given the messages
parsed out of the thread's HTML files: stores each message, and writes the
thread row plus its `message` label only when at least one message was newly
inserted in this call (`if msg_count > 0`). -/
def ingest_google_voice_thread (tid : String) (msgs : List ParsedMessage) (db : DB) :
    DB × Nat × Nat :=
  let st := message_store_loop tid gv_snippet msgs ⟨db, 0, 0, 0, ""⟩
  (if st.inserted > 0 then
      insertLabelIfAbsent tid "message"
        (upsertThread tid (gv_thread_row tid st.last_activity_ms st.latest_snippet) st.db)
    else st.db, st.inserted, st.skipped)

/-- A voice message already stored by the first call of the C9 witness. -/
def c9_msgs : List ParsedMessage := [⟨"Me", 7, "hey", [], false⟩]

/-- Store state after the first Google Voice call of the C9 witness. -/
def c9_db1 : DB := (ingest_google_voice_thread "+15550001111" c9_msgs emptyDB).1

-- parsers/google_mail.py `ingest_google_mail_mbox` and the statistical
-- identity resolution (`discover_google_mail_identity`,
-- ingest.py `finalize_gmail_identity`).
/-- One decoded MBOX message as the storage loop receives it:
the `getaddresses` output of the Delivered-To header as (display name,
address) pairs, the dedup-key fields, the raw X-Gmail-Labels header, the
`parse_participants` output and the decoded subject.  (HTML-to-text body
cleanup is abstracted: `content` is the processed body and the stored
snippet is modelled as that text.) -/
structure MailMessage where
  delivered : List (String × String)
  thread_id : String
  sender_name : String
  timestamp_ms : Int
  content : String
  gmail_labels : String
  participants : List String
  title : String
deriving DecidableEq

/-- One entry of the run-scoped `gmail_identity_stats` map:
address mapped to (names seen, message count), in insertion order. -/
abbrev IdentityStats := List (String × List String × Nat)

/-- Python `str.lower()` (character-wise, as used on addresses/labels). -/
def lower_string (s : String) : String :=
  String.mk (s.toList.map Char.toLower)

/-- Python `str.strip()`: drop leading and trailing whitespace. -/
def strip_string (s : String) : String :=
  String.mk (((s.toList.dropWhile Char.isWhitespace).reverse.dropWhile
    Char.isWhitespace).reverse)

/-- The Delivered-To collection step of `ingest_google_mail_mbox` for one
parsed (name, addr) pair: skip empty addresses, lowercase and strip the
address and increment its counter, creating the entry with an empty names
set on first sight.  The display name is discarded — nothing in the source
ever adds to the `names` set. -/
def collect_one (st : IdentityStats) (p : String × String) : IdentityStats :=
  if p.2 = "" then st
  else
    let a := strip_string (lower_string p.2)
    if st.any (fun e => e.1 = a) then
      st.map (fun e => if e.1 = a then (e.1, e.2.1, e.2.2 + 1) else e)
    else st ++ [(a, ([], 1))]

/-- The Delivered-To collection of one message's address list. -/
def collect_delivered (pairs : List (String × String)) (stats : IdentityStats) :
    IdentityStats :=
  pairs.foldl collect_one stats

/-- The `sent`/`inbox` markers derived from an X-Gmail-Labels header value
(`"Sent" in raw_labels` / `"Inbox" in raw_labels`). -/
def derive_labels (raw : String) : List String :=
  (if contains_substr "Sent" raw then ["sent"] else []) ++
  (if contains_substr "Inbox" raw then ["inbox"] else [])

/-- Python set union on the accumulated label lists (membership-preserving). -/
def label_union (a b : List String) : List String :=
  a ++ b.filter (fun l => ¬ a.contains l)

/-- Cached per-thread metadata (`cache_threads` values). -/
structure MailThreadInfo where
  title : String
  participants : List String
  last_ms : Int
  snippet : String
  labels : List String
deriving DecidableEq

/-- Running state of the MBOX loop. -/
structure MailLoopState where
  db : DB
  cache : List (String × MailThreadInfo)
  inserted : Nat
  skipped : Nat
  stats : IdentityStats

/-- Cache refresh for an already-cached thread when a further message of it
was newly inserted: the snippet/last_ms advance only for a strictly newer
timestamp, and the message's labels are unioned in. -/
def update_mail_info (info : MailThreadInfo) (m : MailMessage) : MailThreadInfo :=
  let info2 :=
    if m.timestamp_ms > info.last_ms then
      { info with last_ms := m.timestamp_ms, snippet := m.content }
    else info
  { info2 with labels := label_union info2.labels (derive_labels m.gmail_labels) }

/-- One MBOX message: collect the Delivered-To counters, INSERT OR IGNORE
the content row, and on a positive rowcount create or refresh the thread
cache entry (skipped duplicates contribute nothing to the cache). -/
def ingest_google_mail_step (st : MailLoopState) (m : MailMessage) : MailLoopState :=
  let stats2 := collect_delivered m.delivered st.stats
  let r := insertMessageIfAbsent ⟨m.thread_id, m.sender_name, m.timestamp_ms, m.content⟩ st.db
  if r.2 then
    { db := r.1
      cache :=
        if st.cache.any (fun e => e.1 = m.thread_id) then
          st.cache.map (fun e => if e.1 = m.thread_id then (e.1, update_mail_info e.2 m) else e)
        else
          st.cache ++ [(m.thread_id,
            ⟨m.title, m.participants, m.timestamp_ms, m.content, derive_labels m.gmail_labels⟩)]
      inserted := st.inserted + 1
      skipped := st.skipped
      stats := stats2 }
  else
    { db := r.1, cache := st.cache, inserted := st.inserted, skipped := st.skipped + 1,
      stats := stats2 }

/-- The loop state after all messages of the MBOX file. -/
def mail_run_state (msgs : List MailMessage) (db : DB) (stats0 : IdentityStats) :
    MailLoopState :=
  msgs.foldl ingest_google_mail_step ⟨db, [], 0, 0, stats0⟩

/-- The `threads` row the finishing pass REPLACEs for a cached thread:
`is_group = 1 if len(participants) > 2 else 0`. -/
def gm_thread_row (info : MailThreadInfo) : ThreadRow :=
  { platform := "google_mail"
    title := info.title
    participants_json := some info.participants
    is_group := some (decide (2 < info.participants.length))
    last_activity_ms := some info.last_ms
    snippet := some info.snippet }

/-- The effective label set inserted for a cached thread: every Gmail thread
gets at least one label, defaulting to `inbox`. -/
def gm_effective_labels (info : MailThreadInfo) : List String :=
  if info.labels = [] then ["inbox"] else info.labels

/-- The finishing pass for one cached thread: REPLACE its row, then
OR IGNORE each of its labels (lowercased). -/
def ingest_mail_finish_thread (db : DB) (tid : String) (info : MailThreadInfo) : DB :=
  (gm_effective_labels info).foldl
    (fun d l => insertLabelIfAbsent tid (lower_string l) d)
    (upsertThread tid (gm_thread_row info) db)

/-- parsers/google_mail.py `ingest_google_mail_mbox`: run the message loop,
then commit every cached thread and its labels.  Returns the new store
state, the (inserted, skipped) counts and the updated identity stats. -/
def ingest_google_mail_mbox (msgs : List MailMessage) (db : DB) (stats0 : IdentityStats) :
    DB × Nat × Nat × IdentityStats :=
  let st := mail_run_state msgs db stats0
  (st.cache.foldl (fun d e => ingest_mail_finish_thread d e.1 e.2) st.db,
   st.inserted, st.skipped, st.stats)

/-- parsers/google_mail.py `discover_google_mail_identity`: Python's stable
descending sort by count followed by taking the head — the first entry (in
insertion order) among those of maximal count. -/
def discover_google_mail_identity (stats : IdentityStats) :
    Option (String × List String × Nat) :=
  match stats with
  | [] => none
  | e :: rest => some (rest.foldl (fun best x => if x.2.2 > best.2.2 then x else best) e)

/-- ingest.py `finalize_gmail_identity`: the identities rows registered at
run end — the winning address as an is-me email identity, followed by one
is-me name identity per recorded display name of that address. -/
def finalize_gmail_identity (stats : IdentityStats) :
    List (String × String × String × Bool) :=
  match discover_google_mail_identity stats with
  | none => []
  | some (best, names, _) =>
      ("google_mail", "email", best, true) ::
        names.map (fun n => ("google_mail", "name", n, true))

/-- The display names registered as is-me aliases at run end. -/
def registered_name_aliases (stats : IdentityStats) : List String :=
  match discover_google_mail_identity stats with
  | none => []
  | some (_, names, _) => names

/-- All (display name, address) pairs seen in Delivered-To headers during a
run — the claim's notion of a name being "seen paired with" an address. -/
def all_delivered_pairs (msgs : List MailMessage) : List (String × String) :=
  msgs.foldl (fun acc m => acc ++ m.delivered) []

/-- No entry of an identity-stats map carries a recorded display name. -/
def stats_names_empty (stats : IdentityStats) : Prop :=
  ∀ e ∈ stats, e.2.1 = ([] : List String)

/-- A mail thread's newest message, for the C4 witness. -/
def c4_mail_msg_new : MailMessage := ⟨[], "gm_t", "S", 100, "newest", "", ["A"], "T"⟩

/-- An older, not-yet-stored message of the same mail thread. -/
def c4_mail_msg_old : MailMessage := ⟨[], "gm_t", "S", 50, "older", "", ["A"], "T"⟩

/-- Store state with the newest mail message already ingested. -/
def c4_mail_db0 : DB := (ingest_google_mail_mbox [c4_mail_msg_new] emptyDB []).1

/-- A second MBOX pass over both messages: the newest is skipped as a
duplicate (contributing nothing to the thread cache), the older one is
inserted. -/
def c4_mail_run : DB :=
  (ingest_google_mail_mbox [c4_mail_msg_new, c4_mail_msg_old] c4_mail_db0 []).1

/-- The identity-selection witness input: delivered-to counts a@x: 1,
b@y: 2, with a display name once paired with b@y. -/
def c5_msgs : List MailMessage :=
  [⟨[("", "a@x")], "gm_1", "S", 1, "b1", "", ["A", "B"], "T1"⟩,
   ⟨[("Bob", "b@y")], "gm_2", "S", 2, "b2", "", ["A"], "T2"⟩,
   ⟨[("", "b@y")], "gm_3", "S", 3, "b3", "", ["A"], "T3"⟩]

/-- Input for the C5 counterexample: one ingested message whose Delivered-To
header carries the display name Bob next to the winning address. -/
def c5_counter_msgs : List MailMessage :=
  [⟨[("Bob", "b@y")], "gm_1", "S", 1, "hello", "", ["A"], "T"⟩]

/-- Every cached thread's accumulated labels are among sent/inbox. -/
def cache_labels_ok (cache : List (String × MailThreadInfo)) : Prop :=
  ∀ e ∈ cache, ∀ l ∈ e.2.labels, l = "sent" ∨ l = "inbox"

/-- One MBOX message with no Sent/Inbox marker, for the C10 witness: the
accumulated label set is empty, so the thread defaults to `inbox`. -/
def c10_msgs : List MailMessage :=
  [⟨[], "gm_t", "S", 5, "hi", "", ["A"], "T"⟩]

/-- The stored state of a two-party Google Chat thread. -/
def c7_db : DB :=
  (ingest_google_chat_thread "t" "" ["A", "B"] [⟨"A", 1, "hi", [], false⟩] emptyDB).1

-- C2: attachment reconciliation of parsers/google_chat.py
-- `ingest_google_chat_thread` (disk scan, grouping, right-aligned
-- assignment, fallback naming).
/-- The pathlib stem/suffix split: the suffix starts at the last dot, provided
it is neither the first nor the last character of the name. -/
def split_stem_ext (name : List Char) : List Char × List Char :=
  let n := name.length
  let dots := (List.range n).filter (fun i => name.get? i = some '.')
  match dots.getLast? with
  | some i => if 0 < i ∧ i < n - 1 then (name.take i, name.drop i) else (name, [])
  | none => (name, [])

def digits_to_nat (ds : List Char) : Nat :=
  ds.foldl (fun a c => a * 10 + (c.toNat - 48)) 0

/-- The regex `^(.*)\((\d+)\)$` applied to a stem (greedy, so only the last
parenthesized digit run is stripped): returns the base and the index. -/
def strip_paren_idx (stem : List Char) : Option (List Char × Nat) :=
  match stem.reverse with
  | ')' :: rest =>
      let digits := rest.takeWhile Char.isDigit
      match digits, rest.dropWhile Char.isDigit with
      | [], _ => none
      | _ :: _, '(' :: base => some (base.reverse, digits_to_nat digits.reverse)
      | _, _ => none
  | _ => none

/-- The disk-scan classification of one file name: its group key (the
logical base name, with any trailing "(k)" stripped from the stem) and its
disambiguation index (absent suffix counts as 0). -/
def classify_disk_file (fname : String) : String × Nat :=
  let se := split_stem_ext fname.toList
  match strip_paren_idx se.1 with
  | some bi => (String.mk (bi.1 ++ se.2), bi.2)
  | none => (fname, 0)

/-- Order-preserving insertion by index (Python's stable sort). -/
def insert_by_idx (x : Nat × String) : List (Nat × String) → List (Nat × String)
  | [] => [x]
  | y :: ys => if y.1 ≤ x.1 then y :: insert_by_idx x ys else x :: y :: ys

/-- Python `disk_file_map[base].sort(key=lambda x: x[0])`. -/
def sort_by_idx (l : List (Nat × String)) : List (Nat × String) :=
  l.foldl (fun acc x => insert_by_idx x acc) []

/-- The candidate list of a logical name: the on-disk files whose
suffix-stripped base equals it, as (index, actual name) pairs sorted by
index ascending. -/
def disk_candidates (ename : String) (files : List String) : List (Nat × String) :=
  sort_by_idx (files.filterMap (fun f =>
    if (classify_disk_file f).1 = ename then some ((classify_disk_file f).2, f) else none))

/-- Python `ename.replace("?", "_")`. -/
def sanitize_qmark (s : String) : String :=
  String.mk (s.toList.map (fun ch => if ch = '?' then '_' else ch))

/-- The candidates actually consulted: when the logical name has none and
contains a '?', the punctuation-sanitized variant's candidates are used. -/
def resolve_candidates (ename : String) (files : List String) : List (Nat × String) :=
  let c := disk_candidates ename files
  if c = [] ∧ contains_substr "?" ename then
    disk_candidates (sanitize_qmark ename) files
  else c

/-- The name assigned to the i-th metadata reference (0-indexed) of a
logical name with `ref_count` references: candidate `offset + i` with
`offset = max(0, candidate_count - ref_count)` (Nat subtraction), falling
back to the synthesized "(index)" name, the sanitized name, or the original
name when the index has no disk candidate. -/
def resolve_attachment_name (ename : String) (files : List String)
    (ref_count i : Nat) : String :=
  let cands := resolve_candidates ename files
  let disk_idx := cands.length - ref_count + i
  match cands.get? disk_idx with
  | some c => c.2
  | none =>
      let se := split_stem_ext ename.toList
      if disk_idx > 0 then
        String.mk se.1 ++ "(" ++ toString disk_idx ++ ")" ++ String.mk se.2
      else if contains_substr "?" ename then sanitize_qmark ename
      else ename

/-- The claim's "(k) suffix inserted before the extension" constructor. -/
def spec_with_suffix (ename : String) (k : Nat) : String :=
  let se := split_stem_ext ename.toList
  String.mk se.1 ++ "(" ++ toString k ++ ")" ++ String.mk se.2

/-- The matching predicate exactly as the claim words it: a file matches a
logical name when its name equals it exactly, or equals it with a trailing
"(k)" suffix inserted before the extension. -/
def spec_matches_logical (ename fname : String) : Prop :=
  fname = ename ∨ ∃ k, fname = spec_with_suffix ename k

/-- The spec's concrete alignment instance: four disk files, two metadata
references. -/
def c2_files : List String := ["a.jpg", "a(1).jpg", "a(2).jpg", "a(3).jpg"]

/-- Disk state for the C2 counterexample: the logical name itself ends in a
"(k)" suffix. -/
def c2x_files : List String := ["a(1).jpg", "a(1)(1).jpg"]

-- Theorems.

-- Basic lemmas about the store operations.
theorem insertMessageIfAbsent_mem (k : MsgKey) (db : DB) :
    k ∈ (insertMessageIfAbsent k db).1.messages := by
  unfold insertMessageIfAbsent
  by_cases h : k ∈ db.messages <;> simp [h]

theorem insertMessageIfAbsent_mono {k' : MsgKey} (k : MsgKey) (db : DB)
    (h : k' ∈ db.messages) : k' ∈ (insertMessageIfAbsent k db).1.messages := by
  unfold insertMessageIfAbsent
  by_cases hk : k ∈ db.messages <;> simp [hk, h]

theorem insertMessageIfAbsent_of_mem {k : MsgKey} {db : DB}
    (h : k ∈ db.messages) : insertMessageIfAbsent k db = (db, false) := by
  simp [insertMessageIfAbsent, h]

theorem insertMessageIfAbsent_nodup {k : MsgKey} {db : DB}
    (h : db.messages.Nodup) : (insertMessageIfAbsent k db).1.messages.Nodup := by
  unfold insertMessageIfAbsent
  by_cases hk : k ∈ db.messages <;> simp [hk, h]

theorem ingestKeys_nodup (ks : List MsgKey) : (ingestKeys ks).messages.Nodup := by
  suffices h : ∀ (db : DB), db.messages.Nodup →
      (ks.foldl (fun db k => (insertMessageIfAbsent k db).1) db).messages.Nodup by
    exact h emptyDB (by simp [emptyDB])
  induction ks with
  | nil => intro db hdb; simpa using hdb
  | cons k rest ih =>
      intro db hdb
      exact ih _ (insertMessageIfAbsent_nodup hdb)

-- Component-preservation lemmas: each operation touches only its own table.
theorem upsertThread_messages (id : String) (row : ThreadRow) (db : DB) :
    (upsertThread id row db).messages = db.messages := by
  unfold upsertThread; split <;> rfl

theorem upsertThread_labels (id : String) (row : ThreadRow) (db : DB) :
    (upsertThread id row db).thread_labels = db.thread_labels := by
  unfold upsertThread; split <;> rfl

theorem insertLabelIfAbsent_messages (t l : String) (db : DB) :
    (insertLabelIfAbsent t l db).messages = db.messages := by
  unfold insertLabelIfAbsent; split <;> rfl

theorem insertLabelIfAbsent_threads (t l : String) (db : DB) :
    (insertLabelIfAbsent t l db).threads = db.threads := by
  unfold insertLabelIfAbsent; split <;> rfl

theorem updateThreadActivity_messages (id : String) (l : Int) (s : String) (db : DB) :
    (updateThreadActivity id l s db).messages = db.messages := rfl

theorem updateThreadActivity_labels (id : String) (l : Int) (s : String) (db : DB) :
    (updateThreadActivity id l s db).thread_labels = db.thread_labels := rfl

theorem insertMessageIfAbsent_threads (k : MsgKey) (db : DB) :
    (insertMessageIfAbsent k db).1.threads = db.threads := by
  unfold insertMessageIfAbsent; split <;> rfl

theorem insertMessageIfAbsent_labels (k : MsgKey) (db : DB) :
    (insertMessageIfAbsent k db).1.thread_labels = db.thread_labels := by
  unfold insertMessageIfAbsent; split <;> rfl

theorem insertOrReplaceMessage_threads (k : MsgKey) (db : DB) :
    (insertOrReplaceMessage k db).1.threads = db.threads := by
  unfold insertOrReplaceMessage; split <;> rfl

theorem insertOrReplaceMessage_labels (k : MsgKey) (db : DB) :
    (insertOrReplaceMessage k db).1.thread_labels = db.thread_labels := by
  unfold insertOrReplaceMessage; split <;> rfl

theorem insertOrReplaceMessage_rowcount (k : MsgKey) (db : DB) :
    (insertOrReplaceMessage k db).2 = true := by
  unfold insertOrReplaceMessage; split <;> rfl

theorem insertOrReplaceMessage_mem (k : MsgKey) (db : DB) :
    k ∈ (insertOrReplaceMessage k db).1.messages := by
  unfold insertOrReplaceMessage
  by_cases h : k ∈ db.messages <;> simp [h]

theorem insertOrReplaceMessage_mono {k' : MsgKey} (k : MsgKey) (db : DB)
    (h : k' ∈ db.messages) : k' ∈ (insertOrReplaceMessage k db).1.messages := by
  unfold insertOrReplaceMessage
  by_cases hk : k ∈ db.messages <;> simp [hk, h]

theorem insertOrReplaceMessage_of_mem {k : MsgKey} {db : DB}
    (h : k ∈ db.messages) : insertOrReplaceMessage k db = (db, true) := by
  simp [insertOrReplaceMessage, h]

theorem insertLabelIfAbsent_of_mem {t l : String} {db : DB}
    (h : (t, l) ∈ db.thread_labels) : insertLabelIfAbsent t l db = db := by
  simp [insertLabelIfAbsent, h]

theorem insertLabelIfAbsent_mem (t l : String) (db : DB) :
    (t, l) ∈ (insertLabelIfAbsent t l db).thread_labels := by
  unfold insertLabelIfAbsent
  by_cases h : (t, l) ∈ db.thread_labels <;> simp [h]

theorem insertLabelIfAbsent_mem_mono {x : String × String} (t l : String) (db : DB)
    (h : x ∈ db.thread_labels) : x ∈ (insertLabelIfAbsent t l db).thread_labels := by
  unfold insertLabelIfAbsent
  by_cases hk : (t, l) ∈ db.thread_labels <;> simp [hk, h]

theorem any_fst_map_of_fst_eq {f : String × ThreadRow → String × ThreadRow}
    (hf : ∀ p, (f p).1 = p.1) (i : String) :
    ∀ l : List (String × ThreadRow),
    (l.map f).any (fun p => p.1 = i) = l.any (fun p => p.1 = i) := by
  intro l
  induction l with
  | nil => rfl
  | cons p ps ih =>
      simp only [List.map_cons, List.any_cons, ih, hf p]

theorem find?_fst_map_of_fst_eq {f : String × ThreadRow → String × ThreadRow}
    (hf : ∀ p, (f p).1 = p.1) (i : String) :
    ∀ l : List (String × ThreadRow),
    (l.map f).find? (fun p => p.1 = i) = (l.find? (fun p => p.1 = i)).map f := by
  intro l
  induction l with
  | nil => rfl
  | cons p ps ih =>
      simp only [List.map_cons, List.find?_cons, hf p]
      by_cases hp : p.1 = i
      · simp [hp]
      · simp [hp, ih]

theorem upsert_map_fst (id : String) (row : ThreadRow) :
    ∀ p : String × ThreadRow, ((if p.1 = id then (id, row) else p) : String × ThreadRow).1 = p.1 := by
  intro p
  by_cases hp : p.1 = id <;> simp [hp]

theorem update_map_fst (id : String) (l : Int) (s : String) :
    ∀ p : String × ThreadRow,
    ((if p.1 = id then (p.1, { p.2 with last_activity_ms := some l, snippet := some s })
      else p) : String × ThreadRow).1 = p.1 := by
  intro p
  by_cases hp : p.1 = id <;> simp [hp]

theorem hasThread_upsert_self (id : String) (row : ThreadRow) (db : DB) :
    hasThread id (upsertThread id row db) = true := by
  unfold hasThread upsertThread
  by_cases h : db.threads.any (fun p => p.1 = id)
  · simp [h, any_fst_map_of_fst_eq (upsert_map_fst id row) id]
  · simp [h]

theorem hasThread_upsert_mono {i : String} (j : String) (row : ThreadRow) (db : DB)
    (h : hasThread i db = true) : hasThread i (upsertThread j row db) = true := by
  unfold hasThread upsertThread at *
  by_cases hj : db.threads.any (fun p => p.1 = j)
  · simpa [hj, any_fst_map_of_fst_eq (upsert_map_fst j row) i] using h
  · simp [hj, List.any_cons, h]

theorem upsertThread_length_of_has {id : String} {db : DB}
    (h : hasThread id db = true) (row : ThreadRow) :
    (upsertThread id row db).threads.length = db.threads.length := by
  unfold hasThread at h
  unfold upsertThread
  simp [h]

theorem updateThreadActivity_length (id : String) (l : Int) (s : String) (db : DB) :
    (updateThreadActivity id l s db).threads.length = db.threads.length := by
  simp [updateThreadActivity]

theorem hasThread_update (i j : String) (l : Int) (s : String) (db : DB) :
    hasThread i (updateThreadActivity j l s db) = hasThread i db := by
  unfold hasThread updateThreadActivity
  exact any_fst_map_of_fst_eq (update_map_fst j l s) i db.threads

theorem lookupThread_upsert_self (id : String) (row : ThreadRow) (db : DB) :
    lookupThread id (upsertThread id row db) = some row := by
  unfold lookupThread upsertThread
  by_cases h : db.threads.any (fun p => p.1 = id)
  · simp only [h, if_true]
    rw [find?_fst_map_of_fst_eq (upsert_map_fst id row) id]
    have hsome : (db.threads.find? (fun p => p.1 = id)).isSome := by
      rw [List.find?_isSome]
      simpa using h
    obtain ⟨q, hq⟩ := Option.isSome_iff_exists.mp hsome
    have hqid : q.1 = id := by simpa using List.find?_some hq
    simp [hq, hqid]
  · simp [h, List.find?_cons]

theorem lookupThread_update_self (id : String) (l : Int) (s : String) (db : DB) :
    lookupThread id (updateThreadActivity id l s db) =
      (lookupThread id db).map
        (fun r => { r with last_activity_ms := some l, snippet := some s }) := by
  unfold lookupThread updateThreadActivity
  rw [find?_fst_map_of_fst_eq (update_map_fst id l s) id]
  cases hq : db.threads.find? (fun p => p.1 = id) with
  | none => simp
  | some q =>
      have hqid : q.1 = id := by simpa using List.find?_some hq
      simp [hqid]

theorem message_store_loop_threads (tid : String) (snip : ParsedMessage → String → String)
    (msgs : List ParsedMessage) : ∀ st : LoopState,
    (message_store_loop tid snip msgs st).db.threads = st.db.threads := by
  induction msgs with
  | nil => intro st; rfl
  | cons m rest ih =>
      intro st
      rw [message_store_loop, ih]
      exact insertMessageIfAbsent_threads _ _

theorem message_store_loop_labels (tid : String) (snip : ParsedMessage → String → String)
    (msgs : List ParsedMessage) : ∀ st : LoopState,
    (message_store_loop tid snip msgs st).db.thread_labels = st.db.thread_labels := by
  induction msgs with
  | nil => intro st; rfl
  | cons m rest ih =>
      intro st
      rw [message_store_loop, ih]
      exact insertMessageIfAbsent_labels _ _

theorem message_store_loop_mem_mono (tid : String) (snip : ParsedMessage → String → String)
    (msgs : List ParsedMessage) {k : MsgKey} : ∀ st : LoopState,
    k ∈ st.db.messages → k ∈ (message_store_loop tid snip msgs st).db.messages := by
  induction msgs with
  | nil => intro st h; exact h
  | cons m rest ih =>
      intro st h
      rw [message_store_loop]
      exact ih _ (insertMessageIfAbsent_mono _ _ h)

theorem message_store_loop_inserts (tid : String) (snip : ParsedMessage → String → String)
    (msgs : List ParsedMessage) : ∀ st : LoopState, ∀ m ∈ msgs,
    msgKey tid m ∈ (message_store_loop tid snip msgs st).db.messages := by
  induction msgs with
  | nil => intro st m hm; simp at hm
  | cons m0 rest ih =>
      intro st m hm
      rw [message_store_loop]
      rcases List.mem_cons.mp hm with h | h
      · subst h
        exact message_store_loop_mem_mono tid snip rest _
          (insertMessageIfAbsent_mem (msgKey tid m) st.db)
      · exact ih _ m h

theorem message_store_loop_all_present (tid : String)
    (snip : ParsedMessage → String → String) (msgs : List ParsedMessage) :
    ∀ st : LoopState, (∀ m ∈ msgs, msgKey tid m ∈ st.db.messages) →
    (message_store_loop tid snip msgs st).db = st.db ∧
    (message_store_loop tid snip msgs st).inserted = st.inserted ∧
    (message_store_loop tid snip msgs st).skipped = st.skipped + msgs.length := by
  induction msgs with
  | nil => intro st _; exact ⟨rfl, rfl, rfl⟩
  | cons m rest ih =>
      intro st hall
      have hm : msgKey tid m ∈ st.db.messages := hall m (List.mem_cons_self m rest)
      have hr : insertMessageIfAbsent (msgKey tid m) st.db = (st.db, false) :=
        insertMessageIfAbsent_of_mem hm
      have hrest : ∀ m' ∈ rest, msgKey tid m' ∈ st.db.messages := by
        intro m' hm'; exact hall m' (List.mem_cons_of_mem m hm')
      rw [message_store_loop]
      simp only [msgKey] at hr
      simp only [hr, Bool.false_eq_true, if_false]
      have h3 := ih ⟨st.db, st.inserted, st.skipped + 1,
        (if m.timestamp_ms ≥ st.last_activity_ms then m.timestamp_ms else st.last_activity_ms),
        (if m.timestamp_ms ≥ st.last_activity_ms then snip m st.latest_snippet
          else st.latest_snippet)⟩ hrest
      refine ⟨h3.1, h3.2.1, ?_⟩
      rw [h3.2.2]
      simp
      omega

theorem fb_ingest_result_messages (tid platform title : String) (parts : List String)
    (msgs : List ParsedMessage) (db : DB) :
    (ingest_facebook_instagram_thread tid platform title parts msgs db).1.messages =
      (fb_ingest_state tid platform title parts msgs db).db.messages := by
  simp only [ingest_facebook_instagram_thread]
  by_cases h : (fb_ingest_state tid platform title parts msgs db).last_activity_ms > 0 <;>
    simp [h, updateThreadActivity_messages]

theorem fb_ingest_result_labels (tid platform title : String) (parts : List String)
    (msgs : List ParsedMessage) (db : DB) :
    (ingest_facebook_instagram_thread tid platform title parts msgs db).1.thread_labels =
      (fb_ingest_state tid platform title parts msgs db).db.thread_labels := by
  simp only [ingest_facebook_instagram_thread]
  by_cases h : (fb_ingest_state tid platform title parts msgs db).last_activity_ms > 0 <;>
    simp [h, updateThreadActivity_labels]

theorem fb_ingest_result_threads_length (tid platform title : String) (parts : List String)
    (msgs : List ParsedMessage) (db : DB) :
    (ingest_facebook_instagram_thread tid platform title parts msgs db).1.threads.length =
      (fb_ingest_state tid platform title parts msgs db).db.threads.length := by
  simp only [ingest_facebook_instagram_thread]
  by_cases h : (fb_ingest_state tid platform title parts msgs db).last_activity_ms > 0 <;>
    simp [h, updateThreadActivity_length]

theorem fb_ingest_result_hasThread (i tid platform title : String) (parts : List String)
    (msgs : List ParsedMessage) (db : DB) :
    hasThread i (ingest_facebook_instagram_thread tid platform title parts msgs db).1 =
      hasThread i (fb_ingest_state tid platform title parts msgs db).db := by
  simp only [ingest_facebook_instagram_thread]
  by_cases h : (fb_ingest_state tid platform title parts msgs db).last_activity_ms > 0 <;>
    simp [h, hasThread_update]

theorem fb_ingest_counts (tid platform title : String) (parts : List String)
    (msgs : List ParsedMessage) (db : DB) :
    (ingest_facebook_instagram_thread tid platform title parts msgs db).2.1 =
      (fb_ingest_state tid platform title parts msgs db).inserted ∧
    (ingest_facebook_instagram_thread tid platform title parts msgs db).2.2 =
      (fb_ingest_state tid platform title parts msgs db).skipped :=
  ⟨rfl, rfl⟩

theorem hasThread_congr {db db' : DB} (i : String) (h : db.threads = db'.threads) :
    hasThread i db = hasThread i db' := by
  unfold hasThread
  rw [h]

theorem events_step_counts (acc : DB × Nat × Nat) (e : FBEvent) :
    (ingest_facebook_events_step acc e).2.1 = acc.2.1 + 1 ∧
    (ingest_facebook_events_step acc e).2.2 = acc.2.2 := by
  simp only [ingest_facebook_events_step]
  simp [insertOrReplaceMessage_rowcount]

theorem events_fold_inserted (l : List FBEvent) :
    ∀ acc : DB × Nat × Nat,
    (l.foldl ingest_facebook_events_step acc).2.1 = acc.2.1 + l.length := by
  induction l with
  | nil => intro acc; rfl
  | cons e rest ih =>
      intro acc
      rw [List.foldl_cons, ih]
      rw [(events_step_counts acc e).1]
      simp [Nat.add_comm, Nat.add_assoc, Nat.add_left_comm]

theorem events_step_messages_mono {k : MsgKey} (acc : DB × Nat × Nat) (e : FBEvent)
    (h : k ∈ acc.1.messages) : k ∈ (ingest_facebook_events_step acc e).1.messages := by
  simp only [ingest_facebook_events_step]
  apply insertOrReplaceMessage_mono
  rwa [insertLabelIfAbsent_messages, upsertThread_messages]

theorem events_step_inserts (acc : DB × Nat × Nat) (e : FBEvent) :
    fb_event_key e ∈ (ingest_facebook_events_step acc e).1.messages := by
  simp only [ingest_facebook_events_step]
  exact insertOrReplaceMessage_mem _ _

theorem events_fold_messages_mono {k : MsgKey} (l : List FBEvent) :
    ∀ acc : DB × Nat × Nat, k ∈ acc.1.messages →
    k ∈ (l.foldl ingest_facebook_events_step acc).1.messages := by
  induction l with
  | nil => intro acc h; exact h
  | cons e rest ih =>
      intro acc h
      exact ih _ (events_step_messages_mono acc e h)

theorem events_fold_inserts (l : List FBEvent) :
    ∀ acc : DB × Nat × Nat, ∀ e ∈ l,
    fb_event_key e ∈ (l.foldl ingest_facebook_events_step acc).1.messages := by
  induction l with
  | nil => intro acc e he; simp at he
  | cons e0 rest ih =>
      intro acc e he
      rcases List.mem_cons.mp he with h | h
      · subst h
        exact events_fold_messages_mono rest _ (events_step_inserts acc e)
      · exact ih _ e h

theorem events_step_of_present (acc : DB × Nat × Nat) (e : FBEvent)
    (hmsg : fb_event_key e ∈ acc.1.messages)
    (hlab : (fb_event_tid e, "event") ∈ acc.1.thread_labels)
    (hth : hasThread (fb_event_tid e) acc.1 = true) :
    (ingest_facebook_events_step acc e).1.messages = acc.1.messages ∧
    (ingest_facebook_events_step acc e).1.thread_labels = acc.1.thread_labels ∧
    (ingest_facebook_events_step acc e).1.threads.length = acc.1.threads.length := by
  simp only [ingest_facebook_events_step]
  have h1 : fb_event_key e ∈
      (insertLabelIfAbsent (fb_event_tid e) "event"
        (upsertThread (fb_event_tid e) (fb_event_row e) acc.1)).messages := by
    rw [insertLabelIfAbsent_messages, upsertThread_messages]; exact hmsg
  have h2 : (fb_event_tid e, "event") ∈
      (upsertThread (fb_event_tid e) (fb_event_row e) acc.1).thread_labels := by
    rw [upsertThread_labels]; exact hlab
  refine ⟨?_, ?_, ?_⟩
  · rw [(insertOrReplaceMessage_of_mem h1)]
    simp only [insertLabelIfAbsent_messages, upsertThread_messages]
  · rw [insertOrReplaceMessage_labels]
    rw [insertLabelIfAbsent_of_mem h2, upsertThread_labels]
  · rw [insertOrReplaceMessage_threads]
    rw [insertLabelIfAbsent_threads]
    exact upsertThread_length_of_has hth _

theorem events_step_hasThread_mono {i : String} (acc : DB × Nat × Nat) (e : FBEvent)
    (h : hasThread i acc.1 = true) :
    hasThread i (ingest_facebook_events_step acc e).1 = true := by
  simp only [ingest_facebook_events_step]
  have h2 : hasThread i (upsertThread (fb_event_tid e) (fb_event_row e) acc.1) = true :=
    hasThread_upsert_mono _ _ _ h
  unfold hasThread at h2 ⊢
  rw [insertOrReplaceMessage_threads, insertLabelIfAbsent_threads]
  exact h2

theorem events_step_hasThread_self (acc : DB × Nat × Nat) (e : FBEvent) :
    hasThread (fb_event_tid e) (ingest_facebook_events_step acc e).1 = true := by
  simp only [ingest_facebook_events_step]
  have h2 := hasThread_upsert_self (fb_event_tid e) (fb_event_row e) acc.1
  unfold hasThread at h2 ⊢
  rw [insertOrReplaceMessage_threads, insertLabelIfAbsent_threads]
  exact h2

theorem events_step_label_mono {x : String × String} (acc : DB × Nat × Nat) (e : FBEvent)
    (h : x ∈ acc.1.thread_labels) :
    x ∈ (ingest_facebook_events_step acc e).1.thread_labels := by
  simp only [ingest_facebook_events_step]
  rw [insertOrReplaceMessage_labels]
  apply insertLabelIfAbsent_mem_mono
  rw [upsertThread_labels]
  exact h

theorem events_step_label_self (acc : DB × Nat × Nat) (e : FBEvent) :
    (fb_event_tid e, "event") ∈ (ingest_facebook_events_step acc e).1.thread_labels := by
  simp only [ingest_facebook_events_step]
  rw [insertOrReplaceMessage_labels]
  exact insertLabelIfAbsent_mem _ _ _

theorem events_fold_hasThread_mono {i : String} (l : List FBEvent) :
    ∀ acc : DB × Nat × Nat, hasThread i acc.1 = true →
    hasThread i (l.foldl ingest_facebook_events_step acc).1 = true := by
  induction l with
  | nil => intro acc h; exact h
  | cons e rest ih =>
      intro acc h
      exact ih _ (events_step_hasThread_mono acc e h)

theorem events_fold_label_mono {x : String × String} (l : List FBEvent) :
    ∀ acc : DB × Nat × Nat, x ∈ acc.1.thread_labels →
    x ∈ (l.foldl ingest_facebook_events_step acc).1.thread_labels := by
  induction l with
  | nil => intro acc h; exact h
  | cons e rest ih =>
      intro acc h
      exact ih _ (events_step_label_mono acc e h)

theorem events_fold_hasThread (l : List FBEvent) :
    ∀ acc : DB × Nat × Nat, ∀ e ∈ l,
    hasThread (fb_event_tid e) (l.foldl ingest_facebook_events_step acc).1 = true := by
  induction l with
  | nil => intro acc e he; simp at he
  | cons e0 rest ih =>
      intro acc e he
      rcases List.mem_cons.mp he with h | h
      · subst h
        exact events_fold_hasThread_mono rest _ (events_step_hasThread_self acc e)
      · exact ih _ e h

theorem events_fold_labels (l : List FBEvent) :
    ∀ acc : DB × Nat × Nat, ∀ e ∈ l,
    (fb_event_tid e, "event") ∈ (l.foldl ingest_facebook_events_step acc).1.thread_labels := by
  induction l with
  | nil => intro acc e he; simp at he
  | cons e0 rest ih =>
      intro acc e he
      rcases List.mem_cons.mp he with h | h
      · subst h
        exact events_fold_label_mono rest _ (events_step_label_self acc e)
      · exact ih _ e h

theorem events_fold_all_present (l : List FBEvent) :
    ∀ acc : DB × Nat × Nat,
    (∀ e ∈ l, fb_event_key e ∈ acc.1.messages) →
    (∀ e ∈ l, (fb_event_tid e, "event") ∈ acc.1.thread_labels) →
    (∀ e ∈ l, hasThread (fb_event_tid e) acc.1 = true) →
    (l.foldl ingest_facebook_events_step acc).1.messages = acc.1.messages ∧
    (l.foldl ingest_facebook_events_step acc).1.thread_labels = acc.1.thread_labels ∧
    (l.foldl ingest_facebook_events_step acc).1.threads.length = acc.1.threads.length := by
  induction l with
  | nil => intro acc _ _ _; exact ⟨rfl, rfl, rfl⟩
  | cons e rest ih =>
      intro acc hmsg hlab hth
      have hstep := events_step_of_present acc e
        (hmsg e (List.mem_cons_self e rest))
        (hlab e (List.mem_cons_self e rest))
        (hth e (List.mem_cons_self e rest))
      rw [List.foldl_cons]
      have hrest := ih (ingest_facebook_events_step acc e)
        (fun e' he' => hstep.1 ▸ hmsg e' (List.mem_cons_of_mem e he'))
        (fun e' he' => hstep.2.1 ▸ hlab e' (List.mem_cons_of_mem e he'))
        (fun e' he' =>
          events_step_hasThread_mono acc e (hth e' (List.mem_cons_of_mem e he')))
      refine ⟨hrest.1.trans hstep.1, hrest.2.1.trans hstep.2.1, hrest.2.2.trans hstep.2.2⟩

theorem fb_ingest_keys_present (tid platform title : String) (parts : List String)
    (msgs : List ParsedMessage) (db : DB) :
    ∀ m ∈ msgs, msgKey tid m ∈
      (ingest_facebook_instagram_thread tid platform title parts msgs db).1.messages := by
  intro m hm
  rw [fb_ingest_result_messages]
  exact message_store_loop_inserts tid _ msgs _ m hm

theorem fb_ingest_hasThread_self (tid platform title : String) (parts : List String)
    (msgs : List ParsedMessage) (db : DB) :
    hasThread tid (ingest_facebook_instagram_thread tid platform title parts msgs db).1 = true := by
  rw [fb_ingest_result_hasThread]
  have h1 : (fb_ingest_state tid platform title parts msgs db).db.threads =
      (insertLabelIfAbsent tid "message"
        (upsertThread tid (fb_thread_row platform title parts) db)).threads :=
    message_store_loop_threads tid _ msgs _
  rw [hasThread_congr tid h1,
    hasThread_congr tid (insertLabelIfAbsent_threads tid "message" _)]
  exact hasThread_upsert_self tid _ db

theorem fb_ingest_label_present (tid platform title : String) (parts : List String)
    (msgs : List ParsedMessage) (db : DB) :
    (tid, "message") ∈
      (ingest_facebook_instagram_thread tid platform title parts msgs db).1.thread_labels := by
  rw [fb_ingest_result_labels]
  have h1 : (fb_ingest_state tid platform title parts msgs db).db.thread_labels =
      (insertLabelIfAbsent tid "message"
        (upsertThread tid (fb_thread_row platform title parts) db)).thread_labels :=
    message_store_loop_labels tid _ msgs _
  rw [h1]
  exact insertLabelIfAbsent_mem tid "message" _

/-- C3 amended:  Re-ingesting the same unmodified inputs a second time
through `ingest_facebook_instagram_thread` (INSERT OR IGNORE) inserts zero
new messages, skips them all, and leaves the stored message set, the thread
row count and the thread-label rows unchanged; re-running
`ingest_facebook_events` (INSERT OR REPLACE) also leaves the stored message
set and the thread/label rows unchanged, but reports every merged event as
inserted again instead of skipped. -/
theorem second_run_inserts_nothing
    (tid platform title : String) (parts : List String) (msgs : List ParsedMessage)
    (evs : List FBEvent) (db db0 : DB) :
    ((ingest_facebook_instagram_thread tid platform title parts msgs
        (ingest_facebook_instagram_thread tid platform title parts msgs db).1).2.1 = 0 ∧
     (ingest_facebook_instagram_thread tid platform title parts msgs
        (ingest_facebook_instagram_thread tid platform title parts msgs db).1).2.2 =
       msgs.length ∧
     (ingest_facebook_instagram_thread tid platform title parts msgs
        (ingest_facebook_instagram_thread tid platform title parts msgs db).1).1.messages =
       (ingest_facebook_instagram_thread tid platform title parts msgs db).1.messages ∧
     (ingest_facebook_instagram_thread tid platform title parts msgs
        (ingest_facebook_instagram_thread tid platform title parts msgs db).1).1.threads.length =
       (ingest_facebook_instagram_thread tid platform title parts msgs db).1.threads.length ∧
     (ingest_facebook_instagram_thread tid platform title parts msgs
        (ingest_facebook_instagram_thread tid platform title parts msgs db).1).1.thread_labels =
       (ingest_facebook_instagram_thread tid platform title parts msgs db).1.thread_labels) ∧
    ((ingest_facebook_events evs (ingest_facebook_events evs db0).1).2.1 =
       (merge_events evs).length ∧
     (ingest_facebook_events evs (ingest_facebook_events evs db0).1).1.messages =
       (ingest_facebook_events evs db0).1.messages ∧
     (ingest_facebook_events evs (ingest_facebook_events evs db0).1).1.threads.length =
       (ingest_facebook_events evs db0).1.threads.length ∧
     (ingest_facebook_events evs (ingest_facebook_events evs db0).1).1.thread_labels =
       (ingest_facebook_events evs db0).1.thread_labels) := by
  set db3 := (ingest_facebook_instagram_thread tid platform title parts msgs db).1 with hdb3
  have hAll : ∀ m ∈ msgs, msgKey tid m ∈
      (insertLabelIfAbsent tid "message"
        (upsertThread tid (fb_thread_row platform title parts) db3)).messages := by
    intro m hm
    rw [insertLabelIfAbsent_messages, upsertThread_messages]
    exact hdb3 ▸ fb_ingest_keys_present tid platform title parts msgs db m hm
  have hst2 := message_store_loop_all_present tid (fun m _ => fb_snippet m) msgs
    ⟨insertLabelIfAbsent tid "message"
        (upsertThread tid (fb_thread_row platform title parts) db3), 0, 0, 0, ""⟩ hAll
  have hdbeq : (fb_ingest_state tid platform title parts msgs db3).db =
      insertLabelIfAbsent tid "message"
        (upsertThread tid (fb_thread_row platform title parts) db3) := hst2.1
  have hth3 : hasThread tid db3 = true :=
    hdb3 ▸ fb_ingest_hasThread_self tid platform title parts msgs db
  have hlab3 : (tid, "message") ∈
      (upsertThread tid (fb_thread_row platform title parts) db3).thread_labels := by
    rw [upsertThread_labels]
    exact hdb3 ▸ fb_ingest_label_present tid platform title parts msgs db
  refine ⟨⟨?_, ?_, ?_, ?_, ?_⟩, ?_, ?_, ?_, ?_⟩
  · rw [(fb_ingest_counts tid platform title parts msgs db3).1]
    exact hst2.2.1
  · rw [(fb_ingest_counts tid platform title parts msgs db3).2]
    exact hst2.2.2.trans (Nat.zero_add msgs.length)
  · rw [fb_ingest_result_messages, hdbeq, insertLabelIfAbsent_messages, upsertThread_messages]
  · rw [fb_ingest_result_threads_length, hdbeq, insertLabelIfAbsent_threads]
    exact upsertThread_length_of_has hth3 _
  · rw [fb_ingest_result_labels, hdbeq, insertLabelIfAbsent_of_mem hlab3, upsertThread_labels]
  · have h := events_fold_inserted (merge_events evs) ((ingest_facebook_events evs db0).1, 0, 0)
    simpa [ingest_facebook_events] using h
  · have h := events_fold_all_present (merge_events evs) ((ingest_facebook_events evs db0).1, 0, 0)
      (fun e he => events_fold_inserts (merge_events evs) (db0, 0, 0) e he)
      (fun e he => events_fold_labels (merge_events evs) (db0, 0, 0) e he)
      (fun e he => events_fold_hasThread (merge_events evs) (db0, 0, 0) e he)
    exact h.1
  · have h := events_fold_all_present (merge_events evs) ((ingest_facebook_events evs db0).1, 0, 0)
      (fun e he => events_fold_inserts (merge_events evs) (db0, 0, 0) e he)
      (fun e he => events_fold_labels (merge_events evs) (db0, 0, 0) e he)
      (fun e he => events_fold_hasThread (merge_events evs) (db0, 0, 0) e he)
    exact h.2.2
  · have h := events_fold_all_present (merge_events evs) ((ingest_facebook_events evs db0).1, 0, 0)
      (fun e he => events_fold_inserts (merge_events evs) (db0, 0, 0) e he)
      (fun e he => events_fold_labels (merge_events evs) (db0, 0, 0) e he)
      (fun e he => events_fold_hasThread (merge_events evs) (db0, 0, 0) e he)
    exact h.2.1

/-- C3 counterexample:  Ingesting the same event file a second time does
NOT report zero newly inserted messages: `ingest_facebook_events` uses
`INSERT OR REPLACE`, whose rowcount is always positive, so the single event
is counted as inserted (not skipped) again on the second run. -/
theorem second_events_run_counts_inserted :
    (ingest_facebook_events c3_events (ingest_facebook_events c3_events emptyDB).1).2.1 = 1 ∧
    ¬ (ingest_facebook_events c3_events
        (ingest_facebook_events c3_events emptyDB).1).2.1 = 0 := by
  refine ⟨by decide, by decide⟩

theorem ite_ge_max (a b : Int) : (if b ≥ a then b else a) = max a b := by
  rw [max_def]

theorem message_store_loop_last (tid : String) (snip : ParsedMessage → String → String)
    (msgs : List ParsedMessage) : ∀ st : LoopState,
    (message_store_loop tid snip msgs st).last_activity_ms =
      msgs.foldl (fun a m => max a m.timestamp_ms) st.last_activity_ms := by
  induction msgs with
  | nil => intro st; rfl
  | cons m rest ih =>
      intro st
      rw [message_store_loop, ih, List.foldl_cons]
      congr 1

theorem fb_loop_snippet (tid : String) (msgs : List ParsedMessage) : ∀ st : LoopState,
    ((message_store_loop tid (fun m _ => fb_snippet m) msgs st).last_activity_ms =
        st.last_activity_ms ∧
     (message_store_loop tid (fun m _ => fb_snippet m) msgs st).latest_snippet =
        st.latest_snippet) ∨
    (∃ m ∈ msgs,
      m.timestamp_ms = (message_store_loop tid (fun m _ => fb_snippet m) msgs st).last_activity_ms ∧
      (message_store_loop tid (fun m _ => fb_snippet m) msgs st).latest_snippet = fb_snippet m) := by
  induction msgs with
  | nil => intro st; exact Or.inl ⟨rfl, rfl⟩
  | cons m rest ih =>
      intro st
      rw [message_store_loop]
      by_cases hge : m.timestamp_ms ≥ st.last_activity_ms
      · rcases ih ⟨(insertMessageIfAbsent ⟨tid, m.sender_name, m.timestamp_ms, m.content⟩ st.db).1,
          _, _, (if m.timestamp_ms ≥ st.last_activity_ms then m.timestamp_ms else st.last_activity_ms),
          (if m.timestamp_ms ≥ st.last_activity_ms then fb_snippet m else st.latest_snippet)⟩
          with ⟨h1, h2⟩ | ⟨m', hm', h1, h2⟩
        · refine Or.inr ⟨m, List.mem_cons_self m rest, ?_, ?_⟩
          · rw [h1]; simp [hge]
          · rw [h2]; simp [hge]
        · exact Or.inr ⟨m', List.mem_cons_of_mem m hm', h1, h2⟩
      · rcases ih ⟨(insertMessageIfAbsent ⟨tid, m.sender_name, m.timestamp_ms, m.content⟩ st.db).1,
          _, _, (if m.timestamp_ms ≥ st.last_activity_ms then m.timestamp_ms else st.last_activity_ms),
          (if m.timestamp_ms ≥ st.last_activity_ms then fb_snippet m else st.latest_snippet)⟩
          with ⟨h1, h2⟩ | ⟨m', hm', h1, h2⟩
        · refine Or.inl ⟨?_, ?_⟩
          · rw [h1]; simp [hge]
          · rw [h2]; simp [hge]
        · exact Or.inr ⟨m', List.mem_cons_of_mem m hm', h1, h2⟩

theorem lookupThread_congr {db db' : DB} (i : String) (h : db.threads = db'.threads) :
    lookupThread i db = lookupThread i db' := by
  unfold lookupThread
  rw [h]

/-- C4 amended:  Within a single call,
`ingest_facebook_instagram_thread` sets `last_activity_ms` to the maximum
timestamp over the messages parsed in that call (inserted or skipped alike),
a value invariant under reordering of that call's messages/files, and the
snippet is that of a maximum-timestamp message of the call.
`ingest_google_mail_mbox` instead tracks, per thread, the maximum timestamp
only over the messages newly inserted in that call: a message skipped as a
duplicate leaves the thread cache — and hence `last_activity_ms` — entirely
untouched, while each newly inserted message advances the cached value to
the maximum of itself and the previous value.  In both ingesters the stored
value is recomputed from the current call's input only and the threads row
is overwritten, so it equals the all-time maximum only when the call's
input supplies the thread's newest (for mail: newest newly inserted)
message: a later call over an overlapping export with only older messages
overwrites `last_activity_ms` with the smaller per-call value (see the
counterexample). -/
theorem last_activity_is_per_call_max
    (tid platform title : String) (parts : List String)
    (msgs msgs' : List ParsedMessage) (db : DB)
    (hperm : msgs.Perm msgs')
    (hpos : 0 < max_timestamp msgs) :
    ((∃ row, lookupThread tid
        (ingest_facebook_instagram_thread tid platform title parts msgs db).1 = some row ∧
      row.last_activity_ms = some (max_timestamp msgs) ∧
      ∃ m ∈ msgs, m.timestamp_ms = max_timestamp msgs ∧
        row.snippet = some (fb_snippet m)) ∧
    max_timestamp msgs' = max_timestamp msgs) ∧
    (∀ (st : MailLoopState) (m : MailMessage),
      (⟨m.thread_id, m.sender_name, m.timestamp_ms, m.content⟩ : MsgKey) ∈ st.db.messages →
      (ingest_google_mail_step st m).cache = st.cache) ∧
    (∀ (info : MailThreadInfo) (m : MailMessage),
      (update_mail_info info m).last_ms = max info.last_ms m.timestamp_ms) := by
  refine ⟨?_, ?_, ?_⟩
  case refine_2 =>
    intro st m hm
    have hr : insertMessageIfAbsent
        ⟨m.thread_id, m.sender_name, m.timestamp_ms, m.content⟩ st.db = (st.db, false) :=
      insertMessageIfAbsent_of_mem hm
    simp only [ingest_google_mail_step, hr, Bool.false_eq_true, if_false]
  case refine_3 =>
    intro info m
    unfold update_mail_info
    by_cases h : m.timestamp_ms > info.last_ms
    · simp only [h, if_true]
      exact (max_eq_right (le_of_lt h)).symm
    · simp only [h, if_false]
      exact (max_eq_left (le_of_not_lt h)).symm
  have hlast : (fb_ingest_state tid platform title parts msgs db).last_activity_ms =
      max_timestamp msgs :=
    message_store_loop_last tid _ msgs _
  constructor
  · have hif : (ingest_facebook_instagram_thread tid platform title parts msgs db).1 =
        updateThreadActivity tid
          (fb_ingest_state tid platform title parts msgs db).last_activity_ms
          (fb_ingest_state tid platform title parts msgs db).latest_snippet
          (fb_ingest_state tid platform title parts msgs db).db := by
      simp only [ingest_facebook_instagram_thread]
      rw [if_pos (by rw [hlast]; exact hpos)]
    have hthreads : (fb_ingest_state tid platform title parts msgs db).db.threads =
        (insertLabelIfAbsent tid "message"
          (upsertThread tid (fb_thread_row platform title parts) db)).threads :=
      message_store_loop_threads tid _ msgs _
    have hlook : lookupThread tid (fb_ingest_state tid platform title parts msgs db).db =
        some (fb_thread_row platform title parts) := by
      rw [lookupThread_congr tid hthreads,
        lookupThread_congr tid (insertLabelIfAbsent_threads tid "message" _)]
      exact lookupThread_upsert_self tid _ db
    have hsnip := fb_loop_snippet tid msgs
      ⟨insertLabelIfAbsent tid "message"
          (upsertThread tid (fb_thread_row platform title parts) db), 0, 0, 0, ""⟩
    rcases hsnip with ⟨h1, _⟩ | ⟨m, hm, h1, h2⟩
    · exfalso
      have : max_timestamp msgs = 0 := by
        rw [← hlast]
        exact h1
      rw [this] at hpos
      exact lt_irrefl 0 hpos
    · refine ⟨{ fb_thread_row platform title parts with
          last_activity_ms := some (max_timestamp msgs),
          snippet := some (fb_snippet m) }, ?_, rfl, m, hm, ?_, rfl⟩
      · rw [hif, lookupThread_update_self, hlook, hlast]
        have h2' : (fb_ingest_state tid platform title parts msgs db).latest_snippet =
            fb_snippet m := h2
        rw [h2']
        rfl
      · rw [h1]
        exact hlast
  · exact (hperm.foldl_eq'
      (fun x _ y _ z => by
        rw [max_assoc, max_comm x.timestamp_ms y.timestamp_ms, ← max_assoc]) 0).symm

theorem last_activity_is_per_call_max_witness :
    (0 : Int) < max_timestamp c4_msgs ∧
    (((∃ row, lookupThread "t"
        (ingest_facebook_instagram_thread "t" "facebook" "T" ["A", "B"] c4_msgs emptyDB).1 =
          some row ∧
      row.last_activity_ms = some (max_timestamp c4_msgs) ∧
      ∃ m ∈ c4_msgs, m.timestamp_ms = max_timestamp c4_msgs ∧
        row.snippet = some (fb_snippet m)) ∧
    max_timestamp c4_msgs_rev = max_timestamp c4_msgs) ∧
    (∀ (st : MailLoopState) (m : MailMessage),
      (⟨m.thread_id, m.sender_name, m.timestamp_ms, m.content⟩ : MsgKey) ∈ st.db.messages →
      (ingest_google_mail_step st m).cache = st.cache) ∧
    (∀ (info : MailThreadInfo) (m : MailMessage),
      (update_mail_info info m).last_ms = max info.last_ms m.timestamp_ms)) ∧
    (lookupThread "gm_t" c4_mail_run).map ThreadRow.last_activity_ms = some (some 50) ∧
    stored_max_ts "gm_t" c4_mail_run = 100 := by
  have h := last_activity_is_per_call_max "t" "facebook" "T" ["A", "B"] c4_msgs c4_msgs_rev
    emptyDB (by decide) (by decide)
  exact ⟨by decide, h, by decide, by decide⟩

/-- C4 counterexample:  After the second ingestion operation the stored
`last_activity_ms` is 50, while the maximum timestamp over all messages ever
stored under the thread id is 100: the value does not equal the all-time
maximum and has decreased across operations (100 to 50), contradicting the
claim. -/
theorem last_activity_decreases_counterexample :
    (lookupThread "t" c4_db1).map ThreadRow.last_activity_ms = some (some 100) ∧
    (lookupThread "t" c4_db2).map ThreadRow.last_activity_ms = some (some 50) ∧
    stored_max_ts "t" c4_db2 = 100 ∧ (50 : Int) < 100 := by
  refine ⟨by decide, by decide, by decide, by decide⟩

/-- C8:  Platform classification follows the fixed ordered precedence
table (google chat, facebook, messenger, instagram): if every keyword
before index `i` fails to occur in the lowercased path and keyword `i`
occurs, the directory is classified as table entry `i`'s platform — however
early in the path, or however alphabetically small, any later-listed
keyword's occurrence is.  The classification is a pure function of the
path, hence identical for identical paths. -/
theorem platform_precedence (path : String) (i : Nat) (hi : i < platform_map.length)
    (hbefore : ∀ j, j < i →
      contains_substr (platform_map.getD j ("", "")).1 path = false)
    (hmatch : contains_substr (platform_map.getD i ("", "")).1 path = true) :
    detected_platform path = some (platform_map.getD i ("", "")).2 := by
  have hi4 : i < 4 := hi
  interval_cases i
  · have hm : contains_substr "google chat" path = true := hmatch
    simp only [detected_platform, platform_map, List.find?]
    rw [hm]
    rfl
  · have h0 : contains_substr "google chat" path = false := hbefore 0 (by omega)
    have hm : contains_substr "facebook" path = true := hmatch
    simp only [detected_platform, platform_map, List.find?]
    rw [h0, hm]
    rfl
  · have h0 : contains_substr "google chat" path = false := hbefore 0 (by omega)
    have h1 : contains_substr "facebook" path = false := hbefore 1 (by omega)
    have hm : contains_substr "messenger" path = true := hmatch
    simp only [detected_platform, platform_map, List.find?]
    rw [h0, h1, hm]
    rfl
  · have h0 : contains_substr "google chat" path = false := hbefore 0 (by omega)
    have h1 : contains_substr "facebook" path = false := hbefore 1 (by omega)
    have h2 : contains_substr "messenger" path = false := hbefore 2 (by omega)
    have hm : contains_substr "instagram" path = true := hmatch
    simp only [detected_platform, platform_map, List.find?]
    rw [h0, h1, h2, hm]
    rfl

theorem platform_precedence_witness :
    contains_substr "instagram" c8_path = true ∧
    contains_substr "messenger" c8_path = true ∧
    detected_platform c8_path = some "facebook" := by
  refine ⟨by decide, by decide, ?_⟩
  have h := platform_precedence c8_path 2 (by decide)
    (by intro j hj; interval_cases j <;> decide) (by decide)
  exact h

/-- C6 code bug:  With 11 successfully processed units of one inserted
message each, the loop commits after the 10th unit, but `scan_directory`
never commits again after the queue drains: at `conn.close()` one unit's
rows are still pending and are discarded (Python's sqlite3 rolls back an
open transaction on close), contradicting the claimed final commit of the
trailing partial batch. -/
theorem trailing_batch_not_committed :
    (scan_directory_commits (List.replicate 11 (1, 0))).1 = 11 ∧
    (scan_directory_commits (List.replicate 11 (1, 0))).2.1 = 10 ∧
    (scan_directory_commits (List.replicate 11 (1, 0))).2.2 = 1 := by
  refine ⟨by decide, by decide, by decide⟩

/-- C9:  A Google Voice virtual-thread call writes its threads row and its
`message` label only when `msg_count > 0`: if the call inserted nothing, the
threads and thread_labels tables are exactly unchanged; if it inserted
something, the thread row and its `message` label are present afterwards;
and a call whose every parsed message is already stored changes nothing at
all and reports zero inserted. -/
theorem gv_no_empty_stubs (tid : String) (msgs : List ParsedMessage) (db : DB) :
    ((ingest_google_voice_thread tid msgs db).2.1 = 0 →
      (ingest_google_voice_thread tid msgs db).1.threads = db.threads ∧
      (ingest_google_voice_thread tid msgs db).1.thread_labels = db.thread_labels) ∧
    (0 < (ingest_google_voice_thread tid msgs db).2.1 →
      hasThread tid (ingest_google_voice_thread tid msgs db).1 = true ∧
      (tid, "message") ∈ (ingest_google_voice_thread tid msgs db).1.thread_labels) ∧
    ((∀ m ∈ msgs, msgKey tid m ∈ db.messages) →
      (ingest_google_voice_thread tid msgs db).1 = db ∧
      (ingest_google_voice_thread tid msgs db).2.1 = 0) := by
  refine ⟨?_, ?_, ?_⟩
  · intro hz
    have hz' : (message_store_loop tid gv_snippet msgs ⟨db, 0, 0, 0, ""⟩).inserted = 0 := hz
    simp only [ingest_google_voice_thread, hz']
    simp only [lt_irrefl, if_false, gt_iff_lt]
    exact ⟨message_store_loop_threads tid _ msgs _, message_store_loop_labels tid _ msgs _⟩
  · intro hp
    have hp' : 0 < (message_store_loop tid gv_snippet msgs ⟨db, 0, 0, 0, ""⟩).inserted := hp
    simp only [ingest_google_voice_thread, gt_iff_lt, hp', if_true]
    constructor
    · have h1 := hasThread_upsert_self tid
        (gv_thread_row tid (message_store_loop tid gv_snippet msgs ⟨db, 0, 0, 0, ""⟩).last_activity_ms
          (message_store_loop tid gv_snippet msgs ⟨db, 0, 0, 0, ""⟩).latest_snippet)
        (message_store_loop tid gv_snippet msgs ⟨db, 0, 0, 0, ""⟩).db
      rw [hasThread_congr tid (insertLabelIfAbsent_threads tid "message" _)]
      exact h1
    · exact insertLabelIfAbsent_mem tid "message" _
  · intro hall
    have h := message_store_loop_all_present tid gv_snippet msgs ⟨db, 0, 0, 0, ""⟩ hall
    have hz : (message_store_loop tid gv_snippet msgs ⟨db, 0, 0, 0, ""⟩).inserted = 0 := h.2.1
    simp only [ingest_google_voice_thread, hz, lt_irrefl, if_false, gt_iff_lt]
    exact ⟨h.1, trivial⟩

theorem gv_no_empty_stubs_witness :
    (∀ m ∈ c9_msgs, msgKey "+15550001111" m ∈ c9_db1.messages) ∧
    ((ingest_google_voice_thread "+15550001111" c9_msgs c9_db1).1 = c9_db1 ∧
     (ingest_google_voice_thread "+15550001111" c9_msgs c9_db1).2.1 = 0) :=
  ⟨by decide, (gv_no_empty_stubs "+15550001111" c9_msgs c9_db1).2.2 (by decide)⟩

theorem collect_one_names_empty (st : IdentityStats) (p : String × String)
    (h : stats_names_empty st) : stats_names_empty (collect_one st p) := by
  unfold collect_one
  by_cases hp : p.2 = ""
  · simpa [hp] using h
  · simp only [hp, if_false]
    by_cases ha : st.any (fun e => e.1 = strip_string (lower_string p.2))
    · simp only [ha, if_true]
      intro e he
      obtain ⟨e0, he0, heq⟩ := List.mem_map.mp he
      by_cases h0 : e0.1 = strip_string (lower_string p.2)
      · rw [← heq]
        simp [h0]
        exact h e0 he0
      · rw [← heq]
        simp [h0]
        exact h e0 he0
    · simp only [ha, if_false]
      intro e he
      rcases List.mem_append.mp he with h1 | h1
      · exact h e h1
      · simp at h1
        simp [h1]

theorem collect_delivered_names_empty (pairs : List (String × String)) :
    ∀ st : IdentityStats, stats_names_empty st →
    stats_names_empty (collect_delivered pairs st) := by
  induction pairs with
  | nil => intro st h; exact h
  | cons p rest ih =>
      intro st h
      exact ih _ (collect_one_names_empty st p h)

theorem mail_step_stats_names (st : MailLoopState) (m : MailMessage)
    (h : stats_names_empty st.stats) :
    stats_names_empty (ingest_google_mail_step st m).stats := by
  unfold ingest_google_mail_step
  by_cases hr : (insertMessageIfAbsent
      ⟨m.thread_id, m.sender_name, m.timestamp_ms, m.content⟩ st.db).2 <;>
    simp only [hr, Bool.false_eq_true, if_true, if_false] <;>
    exact collect_delivered_names_empty m.delivered st.stats h

theorem mail_run_stats_names (msgs : List MailMessage) :
    ∀ st : MailLoopState, stats_names_empty st.stats →
    stats_names_empty ((msgs.foldl ingest_google_mail_step st).stats) := by
  induction msgs with
  | nil => intro st h; exact h
  | cons m rest ih =>
      intro st h
      exact ih _ (mail_step_stats_names st m h)

theorem pick_best_spec (rest : IdentityStats) :
    ∀ e : String × List String × Nat,
    (rest.foldl (fun best x => if x.2.2 > best.2.2 then x else best) e) ∈ e :: rest ∧
    ∀ x ∈ e :: rest,
      x.2.2 ≤ (rest.foldl (fun best x => if x.2.2 > best.2.2 then x else best) e).2.2 := by
  induction rest with
  | nil =>
      intro e
      refine ⟨List.mem_cons_self e [], ?_⟩
      intro x hx
      rcases List.mem_cons.mp hx with h | h
      · subst h; exact le_refl _
      · simp at h
  | cons y ys ih =>
      intro e
      rw [List.foldl_cons]
      obtain ⟨hmem, hbound⟩ := ih (if y.2.2 > e.2.2 then y else e)
      constructor
      · rcases List.mem_cons.mp hmem with h | h
        · rw [h]
          by_cases hy : y.2.2 > e.2.2
          · simp only [hy, if_true]
            exact List.mem_cons_of_mem e (List.mem_cons_self y ys)
          · simp only [hy, if_false]
            exact List.mem_cons_self e (y :: ys)
        · exact List.mem_cons_of_mem e (List.mem_cons_of_mem y h)
      · intro x hx
        have hstart : (if y.2.2 > e.2.2 then y else e).2.2 ≤
            (ys.foldl (fun best x => if x.2.2 > best.2.2 then x else best)
              (if y.2.2 > e.2.2 then y else e)).2.2 :=
          hbound _ (List.mem_cons_self _ ys)
        rcases List.mem_cons.mp hx with h | h
        · subst h
          refine le_trans ?_ hstart
          by_cases hy : y.2.2 > x.2.2
          · simp only [hy, if_true]
            exact le_of_lt hy
          · simp only [hy, if_false]
            exact le_refl _
        · rcases List.mem_cons.mp h with h2 | h2
          · subst h2
            refine le_trans ?_ hstart
            by_cases hy : x.2.2 > e.2.2
            · simp only [hy, if_true]
              exact le_refl _
            · simp only [hy, if_false]
              exact le_of_not_lt hy
          · exact hbound x (List.mem_cons_of_mem _ h2)

theorem discover_spec {stats : IdentityStats} {r : String × List String × Nat}
    (h : discover_google_mail_identity stats = some r) :
    r ∈ stats ∧ ∀ x ∈ stats, x.2.2 ≤ r.2.2 := by
  cases stats with
  | nil => simp [discover_google_mail_identity] at h
  | cons e rest =>
      have hr : rest.foldl (fun best x => if x.2.2 > best.2.2 then x else best) e = r := by
        simpa [discover_google_mail_identity] using h
      obtain ⟨hmem, hbound⟩ := pick_best_spec rest e
      rw [hr] at hmem hbound
      exact ⟨hmem, hbound⟩

/-- C5 amended:  At run end the resolved mail self-identity is a
delivered-to address of maximal message count (the first seen, on ties);
the alias-registration loop registers exactly the display names recorded in
the stats map for that address — and the ingestion never records any
(`names` stays empty for every address), so in fact no is-me name alias is
ever registered: the finalization writes only the single email identity. -/
theorem mail_identity_resolution (msgs : List MailMessage) (db : DB)
    (best : String) (names : List String) (count : Nat)
    (h : discover_google_mail_identity (ingest_google_mail_mbox msgs db []).2.2.2 =
      some (best, names, count)) :
    names = [] ∧
    registered_name_aliases (ingest_google_mail_mbox msgs db []).2.2.2 = [] ∧
    (∀ e ∈ (ingest_google_mail_mbox msgs db []).2.2.2, e.2.2 ≤ count) ∧
    finalize_gmail_identity (ingest_google_mail_mbox msgs db []).2.2.2 =
      [("google_mail", "email", best, true)] := by
  have hs : stats_names_empty (ingest_google_mail_mbox msgs db []).2.2.2 := by
    have := mail_run_stats_names msgs ⟨db, [], 0, 0, []⟩ (by intro e he; simp at he)
    exact this
  obtain ⟨hmem, hbound⟩ := discover_spec h
  have hnames : names = [] := hs _ hmem
  refine ⟨hnames, ?_, ?_, ?_⟩
  · simp [registered_name_aliases, h, hnames]
  · intro x hx
    exact hbound x hx
  · simp [finalize_gmail_identity, h, hnames]

theorem mail_identity_resolution_witness :
    discover_google_mail_identity (ingest_google_mail_mbox c5_msgs emptyDB []).2.2.2 =
      some ("b@y", [], 2) ∧
    (([] : List String) = [] ∧
     registered_name_aliases (ingest_google_mail_mbox c5_msgs emptyDB []).2.2.2 = [] ∧
     (∀ e ∈ (ingest_google_mail_mbox c5_msgs emptyDB []).2.2.2, e.2.2 ≤ 2) ∧
     finalize_gmail_identity (ingest_google_mail_mbox c5_msgs emptyDB []).2.2.2 =
       [("google_mail", "email", "b@y", true)]) :=
  ⟨by decide, mail_identity_resolution c5_msgs emptyDB "b@y" [] 2 (by decide)⟩

/-- C5 counterexample:  The display name Bob is seen paired with the
resolved self address b@y during ingestion, yet no name alias is registered:
the collection loop discards the display names, so the finalization writes
the email identity only — contradicting the claim that every such display
name becomes an is-me alias. -/
theorem mail_alias_never_registered :
    ("Bob", "b@y") ∈ all_delivered_pairs c5_counter_msgs ∧
    discover_google_mail_identity
      (ingest_google_mail_mbox c5_counter_msgs emptyDB []).2.2.2 = some ("b@y", [], 1) ∧
    registered_name_aliases (ingest_google_mail_mbox c5_counter_msgs emptyDB []).2.2.2 = [] ∧
    ¬ ("google_mail", "name", "Bob", true) ∈
        finalize_gmail_identity (ingest_google_mail_mbox c5_counter_msgs emptyDB []).2.2.2 := by
  refine ⟨by decide, by decide, by decide, by decide⟩

-- C10: every Gmail thread written by the finishing pass carries a label.
theorem label_fold_mono {x : String × String} (tid : String) (ls : List String) :
    ∀ d : DB, x ∈ d.thread_labels →
    x ∈ (ls.foldl (fun d l => insertLabelIfAbsent tid (lower_string l) d) d).thread_labels := by
  induction ls with
  | nil => intro d h; exact h
  | cons l rest ih =>
      intro d h
      exact ih _ (insertLabelIfAbsent_mem_mono _ _ _ h)

theorem label_fold_mem (tid : String) (ls : List String) :
    ∀ d : DB, ∀ l ∈ ls,
    (tid, lower_string l) ∈
      (ls.foldl (fun d l => insertLabelIfAbsent tid (lower_string l) d) d).thread_labels := by
  induction ls with
  | nil => intro d l hl; simp at hl
  | cons l0 rest ih =>
      intro d l hl
      rcases List.mem_cons.mp hl with h | h
      · subst h
        exact label_fold_mono tid rest _ (insertLabelIfAbsent_mem _ _ _)
      · exact ih _ l h

theorem finish_thread_label_mono {x : String × String} (db : DB) (tid : String)
    (info : MailThreadInfo) (h : x ∈ db.thread_labels) :
    x ∈ (ingest_mail_finish_thread db tid info).thread_labels := by
  unfold ingest_mail_finish_thread
  apply label_fold_mono
  rw [upsertThread_labels]
  exact h

theorem finish_thread_own_labels (db : DB) (tid : String) (info : MailThreadInfo) :
    ∀ l ∈ gm_effective_labels info,
    (tid, lower_string l) ∈ (ingest_mail_finish_thread db tid info).thread_labels := by
  intro l hl
  unfold ingest_mail_finish_thread
  exact label_fold_mem tid _ _ l hl

theorem mail_finish_fold_mono {x : String × String} (cache : List (String × MailThreadInfo)) :
    ∀ d : DB, x ∈ d.thread_labels →
    x ∈ (cache.foldl (fun d e => ingest_mail_finish_thread d e.1 e.2) d).thread_labels := by
  induction cache with
  | nil => intro d h; exact h
  | cons e es ih =>
      intro d h
      exact ih _ (finish_thread_label_mono _ _ _ h)

theorem mail_finish_fold_labels (cache : List (String × MailThreadInfo)) :
    ∀ (d : DB) (tid : String) (info : MailThreadInfo), (tid, info) ∈ cache →
    ∀ l ∈ gm_effective_labels info,
    (tid, lower_string l) ∈
      (cache.foldl (fun d e => ingest_mail_finish_thread d e.1 e.2) d).thread_labels := by
  induction cache with
  | nil => intro d tid info h; simp at h
  | cons e es ih =>
      intro d tid info h l hl
      rcases List.mem_cons.mp h with h1 | h1
      · rw [List.foldl_cons]
        apply mail_finish_fold_mono
        rw [← h1]
        exact finish_thread_own_labels d tid info l hl
      · exact ih _ tid info h1 l hl

theorem derive_labels_ok (raw : String) :
    ∀ l ∈ derive_labels raw, l = "sent" ∨ l = "inbox" := by
  intro l hl
  unfold derive_labels at hl
  rcases List.mem_append.mp hl with h | h
  · by_cases hs : contains_substr "Sent" raw = true
    · simp [hs] at h
      exact Or.inl h
    · simp [hs] at h
  · by_cases hs : contains_substr "Inbox" raw = true
    · simp [hs] at h
      exact Or.inr h
    · simp [hs] at h

theorem label_union_sub {a b : List String} {l : String} (h : l ∈ label_union a b) :
    l ∈ a ∨ l ∈ b := by
  unfold label_union at h
  rcases List.mem_append.mp h with h1 | h1
  · exact Or.inl h1
  · exact Or.inr (List.mem_filter.mp h1).1

theorem update_mail_info_labels_ok (info : MailThreadInfo) (m : MailMessage)
    (h : ∀ l ∈ info.labels, l = "sent" ∨ l = "inbox") :
    ∀ l ∈ (update_mail_info info m).labels, l = "sent" ∨ l = "inbox" := by
  intro l hl
  unfold update_mail_info at hl
  by_cases ht : m.timestamp_ms > info.last_ms
  · simp only [ht, if_true] at hl
    rcases label_union_sub hl with h1 | h1
    · exact h l h1
    · exact derive_labels_ok m.gmail_labels l h1
  · simp only [ht, if_false] at hl
    rcases label_union_sub hl with h1 | h1
    · exact h l h1
    · exact derive_labels_ok m.gmail_labels l h1

theorem mail_step_cache_ok (st : MailLoopState) (m : MailMessage)
    (h : cache_labels_ok st.cache) :
    cache_labels_ok (ingest_google_mail_step st m).cache := by
  unfold ingest_google_mail_step
  by_cases hr : (insertMessageIfAbsent
      ⟨m.thread_id, m.sender_name, m.timestamp_ms, m.content⟩ st.db).2
  · simp only [hr, if_true]
    by_cases hc : st.cache.any (fun e => e.1 = m.thread_id)
    · simp only [hc, if_true]
      intro e he
      obtain ⟨e0, he0, heq⟩ := List.mem_map.mp he
      by_cases h0 : e0.1 = m.thread_id
      · rw [← heq]
        simp only [h0, if_true]
        exact update_mail_info_labels_ok e0.2 m (h e0 he0)
      · rw [← heq]
        simp only [h0, if_false]
        exact h e0 he0
    · simp only [hc, if_false]
      intro e he
      rcases List.mem_append.mp he with h1 | h1
      · exact h e h1
      · simp at h1
        rw [h1]
        exact derive_labels_ok m.gmail_labels
  · simp only [hr, Bool.false_eq_true, if_false]
    exact h

theorem mail_run_cache_ok (msgs : List MailMessage) :
    ∀ st : MailLoopState, cache_labels_ok st.cache →
    cache_labels_ok ((msgs.foldl ingest_google_mail_step st).cache) := by
  induction msgs with
  | nil => intro st h; exact h
  | cons m rest ih =>
      intro st h
      exact ih _ (mail_step_cache_ok st m h)

/-- C10:  Every thread the MBOX finishing pass writes (i.e. every thread
that acquired a cache entry via a newly inserted message) ends the call with
at least one `thread_labels` row: its accumulated sent/inbox labels — which
can only be "sent" or "inbox", derived from the X-Gmail-Labels headers of
this call's newly inserted messages — or the single default label "inbox"
when that accumulation is empty. -/
theorem mail_thread_always_labeled (msgs : List MailMessage) (db : DB)
    (stats0 : IdentityStats) (tid : String) (info : MailThreadInfo)
    (h : (tid, info) ∈ (mail_run_state msgs db stats0).cache) :
    gm_effective_labels info ≠ [] ∧
    (∀ l ∈ gm_effective_labels info,
      (tid, lower_string l) ∈ (ingest_google_mail_mbox msgs db stats0).1.thread_labels) ∧
    (∃ l, (tid, l) ∈ (ingest_google_mail_mbox msgs db stats0).1.thread_labels) ∧
    (info.labels = [] → gm_effective_labels info = ["inbox"]) ∧
    (∀ l ∈ info.labels, l = "sent" ∨ l = "inbox") := by
  have heff : gm_effective_labels info ≠ [] := by
    unfold gm_effective_labels
    by_cases h0 : info.labels = [] <;> simp [h0]
  have hmem : ∀ l ∈ gm_effective_labels info,
      (tid, lower_string l) ∈ (ingest_google_mail_mbox msgs db stats0).1.thread_labels := by
    intro l hl
    exact mail_finish_fold_labels (mail_run_state msgs db stats0).cache
      (mail_run_state msgs db stats0).db tid info h l hl
  refine ⟨heff, hmem, ?_, ?_, ?_⟩
  · obtain ⟨l, hl⟩ := List.exists_mem_of_ne_nil _ heff
    exact ⟨lower_string l, hmem l hl⟩
  · intro h0
    simp [gm_effective_labels, h0]
  · exact mail_run_cache_ok msgs ⟨db, [], 0, 0, stats0⟩ (by intro e he; simp at he)
      (tid, info) h

theorem mail_thread_always_labeled_witness :
    (("gm_t", (⟨"T", ["A"], 5, "hi", []⟩ : MailThreadInfo)) ∈
      (mail_run_state c10_msgs emptyDB []).cache) ∧
    (gm_effective_labels ⟨"T", ["A"], 5, "hi", []⟩ ≠ [] ∧
     (∀ l ∈ gm_effective_labels (⟨"T", ["A"], 5, "hi", []⟩ : MailThreadInfo),
       ("gm_t", lower_string l) ∈
         (ingest_google_mail_mbox c10_msgs emptyDB []).1.thread_labels) ∧
     (∃ l, ("gm_t", l) ∈ (ingest_google_mail_mbox c10_msgs emptyDB []).1.thread_labels) ∧
     ((⟨"T", ["A"], 5, "hi", []⟩ : MailThreadInfo).labels = [] →
       gm_effective_labels ⟨"T", ["A"], 5, "hi", []⟩ = ["inbox"]) ∧
     (∀ l ∈ (⟨"T", ["A"], 5, "hi", []⟩ : MailThreadInfo).labels,
       l = "sent" ∨ l = "inbox")) :=
  ⟨by decide,
   mail_thread_always_labeled c10_msgs emptyDB [] "gm_t" ⟨"T", ["A"], 5, "hi", []⟩ (by decide)⟩

-- C7: the is_group flag per platform.
theorem fb_ingest_lookup_row (tid platform title : String) (parts : List String)
    (msgs : List ParsedMessage) (db : DB) (row : ThreadRow)
    (h : lookupThread tid
      (ingest_facebook_instagram_thread tid platform title parts msgs db).1 = some row) :
    row.is_group = (fb_thread_row platform title parts).is_group := by
  have hthreads : (fb_ingest_state tid platform title parts msgs db).db.threads =
      (insertLabelIfAbsent tid "message"
        (upsertThread tid (fb_thread_row platform title parts) db)).threads :=
    message_store_loop_threads tid _ msgs _
  have hlook : lookupThread tid (fb_ingest_state tid platform title parts msgs db).db =
      some (fb_thread_row platform title parts) := by
    rw [lookupThread_congr tid hthreads,
      lookupThread_congr tid (insertLabelIfAbsent_threads tid "message" _)]
    exact lookupThread_upsert_self tid _ db
  simp only [ingest_facebook_instagram_thread] at h
  by_cases hc : (fb_ingest_state tid platform title parts msgs db).last_activity_ms > 0
  · rw [if_pos hc, lookupThread_update_self, hlook] at h
    have := Option.some.inj h
    rw [← this]
  · rw [if_neg hc, hlook] at h
    have := Option.some.inj h
    rw [← this]

theorem gc_ingest_lookup_row (tid title : String) (parts : List String)
    (msgs : List ParsedMessage) (db : DB) (row : ThreadRow)
    (h : lookupThread tid
      (ingest_google_chat_thread tid title parts msgs db).1 = some row) :
    row.is_group = (gc_thread_row title parts).is_group := by
  have hthreads : (gc_ingest_state tid title parts msgs db).db.threads =
      (upsertThread tid (gc_thread_row title parts) db).threads :=
    message_store_loop_threads tid _ msgs _
  have hlook : lookupThread tid (gc_ingest_state tid title parts msgs db).db =
      some (gc_thread_row title parts) := by
    rw [lookupThread_congr tid hthreads]
    exact lookupThread_upsert_self tid _ db
  simp only [ingest_google_chat_thread] at h
  by_cases hc : (gc_ingest_state tid title parts msgs db).last_activity_ms > 0
  · rw [if_pos hc, lookupThread_update_self, hlook] at h
    have := Option.some.inj h
    rw [← this]
  · rw [if_neg hc, hlook] at h
    have := Option.some.inj h
    rw [← this]

/-- C7 amended:  The stored group flag is not uniformly "participant
count > 2": facebook/instagram threads store `is_group` as
(raw participant list length > 2, computed before de-duplication), gmail
threads store (participant set size > 2), google chat threads store the
constant true regardless of participant count, and google voice thread rows
leave `is_group` unset (SQL NULL). -/
theorem is_group_per_platform (tid platform title : String) (ps : List String)
    (msgs : List ParsedMessage) (db : DB) (info : MailThreadInfo) (l : Int) (s : String) :
    (∀ row, lookupThread tid
        (ingest_facebook_instagram_thread tid platform title ps msgs db).1 = some row →
      row.is_group = some (decide (2 < ps.length))) ∧
    (∀ row, lookupThread tid
        (ingest_google_chat_thread tid title ps msgs db).1 = some row →
      row.is_group = some true) ∧
    (gv_thread_row tid l s).is_group = none ∧
    (gm_thread_row info).is_group = some (decide (2 < info.participants.length)) := by
  refine ⟨?_, ?_, rfl, rfl⟩
  · intro row h
    rw [fb_ingest_lookup_row tid platform title ps msgs db row h]
    rfl
  · intro row h
    rw [gc_ingest_lookup_row tid title ps msgs db row h]
    rfl

theorem is_group_per_platform_witness :
    lookupThread "t"
      (ingest_facebook_instagram_thread "t" "facebook" "T" ["A", "B", "C"]
        [⟨"A", 1, "hi", [], false⟩] emptyDB).1 =
      some { fb_thread_row "facebook" "T" ["A", "B", "C"] with
        last_activity_ms := some 1, snippet := some "A: hi" } ∧
    ((some { fb_thread_row "facebook" "T" ["A", "B", "C"] with
        last_activity_ms := some 1,
        snippet := some "A: hi" } : Option ThreadRow).get (by decide)).is_group =
      some (decide (2 < (["A", "B", "C"] : List String).length)) := by
  constructor
  · decide
  · have h := (is_group_per_platform "t" "facebook" "T" ["A", "B", "C"]
      [⟨"A", 1, "hi", [], false⟩] emptyDB ⟨"", [], 0, "", []⟩ 0 "").1
      ({ fb_thread_row "facebook" "T" ["A", "B", "C"] with
        last_activity_ms := some 1, snippet := some "A: hi" }) (by decide)
    exact h

/-- C7 counterexample:  A Google Chat thread with exactly two
participants is stored with `is_group = true`, although its participant
count is not greater than 2 — `ingest_google_chat_thread` hard-codes
`is_group = True` for every chat thread. -/
theorem google_chat_dm_flagged_group :
    (lookupThread "t" c7_db).map ThreadRow.is_group = some (some true) ∧
    (lookupThread "t" c7_db).map ThreadRow.participants_json = some (some ["A", "B"]) ∧
    ¬ (2 < (["A", "B"] : List String).length) := by
  refine ⟨by decide, by decide, by decide⟩

theorem insert_by_idx_mem {a x : Nat × String} :
    ∀ l : List (Nat × String), a ∈ insert_by_idx x l ↔ a = x ∨ a ∈ l := by
  intro l
  induction l with
  | nil => simp [insert_by_idx]
  | cons y ys ih =>
      unfold insert_by_idx
      by_cases hy : y.1 ≤ x.1
      · simp only [hy, if_true, List.mem_cons, ih]
        tauto
      · simp only [hy, if_false, List.mem_cons]

theorem insert_by_idx_pairwise (x : Nat × String) :
    ∀ l : List (Nat × String),
    List.Pairwise (fun a b : Nat × String => a.1 ≤ b.1) l →
    List.Pairwise (fun a b : Nat × String => a.1 ≤ b.1) (insert_by_idx x l) := by
  intro l
  induction l with
  | nil => intro _; simp [insert_by_idx]
  | cons y ys ih =>
      intro h
      obtain ⟨hy, hys⟩ := List.pairwise_cons.mp h
      unfold insert_by_idx
      by_cases hle : y.1 ≤ x.1
      · simp only [hle, if_true]
        refine List.pairwise_cons.mpr ⟨?_, ih hys⟩
        intro b hb
        rcases insert_by_idx_mem ys |>.mp hb with h1 | h1
        · rw [h1]; exact hle
        · exact hy b h1
      · simp only [hle, if_false]
        refine List.pairwise_cons.mpr ⟨?_, h⟩
        intro b hb
        have hxy : x.1 ≤ y.1 := le_of_not_le hle
        rcases List.mem_cons.mp hb with h1 | h1
        · rw [h1]; exact hxy
        · exact le_trans hxy (hy b h1)

theorem sort_by_idx_pairwise_aux :
    ∀ (l acc : List (Nat × String)),
    List.Pairwise (fun a b : Nat × String => a.1 ≤ b.1) acc →
    List.Pairwise (fun a b : Nat × String => a.1 ≤ b.1)
      (l.foldl (fun acc x => insert_by_idx x acc) acc) := by
  intro l
  induction l with
  | nil => intro acc h; exact h
  | cons x xs ih =>
      intro acc h
      exact ih _ (insert_by_idx_pairwise x acc h)

theorem sort_by_idx_pairwise (l : List (Nat × String)) :
    List.Pairwise (fun a b : Nat × String => a.1 ≤ b.1) (sort_by_idx l) :=
  sort_by_idx_pairwise_aux l [] (List.Pairwise.nil)

theorem sort_by_idx_mem_aux {a : Nat × String} :
    ∀ (l acc : List (Nat × String)),
    a ∈ l.foldl (fun acc x => insert_by_idx x acc) acc ↔ a ∈ acc ∨ a ∈ l := by
  intro l
  induction l with
  | nil => intro acc; simp
  | cons x xs ih =>
      intro acc
      rw [List.foldl_cons, ih, insert_by_idx_mem]
      simp only [List.mem_cons]
      tauto

theorem sort_by_idx_mem {a : Nat × String} (l : List (Nat × String)) :
    a ∈ sort_by_idx l ↔ a ∈ l := by
  unfold sort_by_idx
  rw [sort_by_idx_mem_aux]
  simp

theorem natSub_cast_max (a b : Nat) : ((a - b : Nat) : Int) = max ((a : Int) - b) 0 := by
  rcases Nat.le_total b a with h | h
  · rw [Nat.cast_sub h, max_eq_left (sub_nonneg.mpr (by exact_mod_cast h))]
  · rw [Nat.sub_eq_zero_of_le h, max_eq_right (sub_nonpos.mpr (by exact_mod_cast h))]
    rfl

/-- C2 amended:  The reconciler groups disk files by their
suffix-stripped base name — a file is a candidate of a logical name exactly
when stripping one trailing "(k)" from its stem (greedy) yields that name,
with an absent suffix counting as index 0 — sorts each group by index
ascending, computes `offset = max(0, candidate_count − reference_count)`,
and binds the i-th metadata reference to candidate `offset + i` when that
index exists on disk.  (A file whose own name ends in "(k)" therefore
groups under the stripped name, never under its verbatim name — see the
counterexample.)  The concrete instance `[a, a(1), a(2), a(3)]` with 2
references binding a(2) and a(3) is the witness. -/
theorem attachment_right_alignment (ename : String) (files : List String)
    (ref_count i : Nat) (_hi : i < ref_count)
    (hlt : (resolve_candidates ename files).length - ref_count + i <
      (resolve_candidates ename files).length) :
    resolve_attachment_name ename files ref_count i =
      ((resolve_candidates ename files).get
        ⟨(resolve_candidates ename files).length - ref_count + i, hlt⟩).2 ∧
    (((resolve_candidates ename files).length - ref_count : Nat) : Int) =
      max (((resolve_candidates ename files).length : Int) - (ref_count : Int)) 0 ∧
    List.Pairwise (fun a b : Nat × String => a.1 ≤ b.1) (disk_candidates ename files) ∧
    (∀ c ∈ disk_candidates ename files, classify_disk_file c.2 = (ename, c.1)) := by
  refine ⟨?_, natSub_cast_max _ _, sort_by_idx_pairwise _, ?_⟩
  · simp only [resolve_attachment_name]
    rw [List.get?_eq_get hlt]
  · intro c hc
    have hc2 : c ∈ (files.filterMap (fun f =>
        if (classify_disk_file f).1 = ename then
          some ((classify_disk_file f).2, f) else none)) :=
      (sort_by_idx_mem _).mp hc
    obtain ⟨f, _, hf⟩ := List.mem_filterMap.mp hc2
    by_cases he : (classify_disk_file f).1 = ename
    · simp only [he, if_true, Option.some.injEq] at hf
      rw [← hf]
      simp only []
      rw [← he]
    · simp [he] at hf

theorem attachment_right_alignment_witness :
    ((0 < 2) ∧ ((resolve_candidates "a.jpg" c2_files).length - 2 + 0 <
      (resolve_candidates "a.jpg" c2_files).length)) ∧
    resolve_attachment_name "a.jpg" c2_files 2 0 = "a(2).jpg" ∧
    resolve_attachment_name "a.jpg" c2_files 2 1 = "a(3).jpg" := by
  refine ⟨⟨by decide, by decide⟩, ?_, by decide⟩
  have h := attachment_right_alignment "a.jpg" c2_files 2 0 (by decide) (by decide)
  rw [h.1]
  decide

/-- C2 counterexample:  For the logical name "a(1).jpg" with disk files
["a(1).jpg", "a(1)(1).jpg"] and 2 metadata references, the claim's matching
predicate makes both files candidates ("a(1).jpg" by exact equality with
k absent = 0, "a(1)(1).jpg" with k = 1), giving offset = max(0, 2−2) = 0
and binding reference 0 to candidate[0] = "a(1).jpg".  The code, however,
groups "a(1).jpg" under the stripped base "a.jpg", so the candidate group
of "a(1).jpg" holds only "a(1)(1).jpg", and reference 0 binds to
"a(1)(1).jpg" — the claim's grouping rule ("its name equals it exactly")
does not describe the code. -/
theorem attachment_exact_name_counterexample :
    spec_matches_logical "a(1).jpg" "a(1).jpg" ∧
    spec_matches_logical "a(1).jpg" "a(1)(1).jpg" ∧
    disk_candidates "a(1).jpg" c2x_files = [(1, "a(1)(1).jpg")] ∧
    resolve_attachment_name "a(1).jpg" c2x_files 2 0 = "a(1)(1).jpg" ∧
    ¬ resolve_attachment_name "a(1).jpg" c2x_files 2 0 = "a(1).jpg" := by
  refine ⟨Or.inl rfl, Or.inr ⟨1, by decide⟩, by decide, by decide, by decide⟩

/-- C1:  The tuple (thread id, sender name, timestamp, content) is the sole
de-duplication key: a second insertion attempt with the same tuple leaves the
message table unchanged and reports "skipped" (`rowcount = 0`, the false
branch) rather than raising, and any sequence of ingestion attempts stores at
most one row per tuple. -/
theorem insertMessageIfAbsent_dedup (db : DB) (k : MsgKey) (ks : List MsgKey) :
    (insertMessageIfAbsent k (insertMessageIfAbsent k db).1) =
      ((insertMessageIfAbsent k db).1, false) ∧
    (ingestKeys ks).messages.count k ≤ 1 := by
  constructor
  · exact insertMessageIfAbsent_of_mem (insertMessageIfAbsent_mem k db)
  · exact List.nodup_iff_count_le_one.mp (ingestKeys_nodup ks) k

end MessageHub
